import Mathlib

/-!
# Fast spherical Bessel transform (`eri_fsbt.c`): a shallow embedding

The development embeds `source/liberi-091216/source/sbt/log/eri_fsbt.c` and
proves properties of the mesh, the kernel table and the two-phase transform. It
also embeds `source/Cont_Matrix4.c`, the contraction of a four-index matrix.

Modelling conventions.

* `double` arithmetic is arithmetic in a field `α`; the theorems take `α = ℝ`
  (exact arithmetic). The definitions are generic in the field, so they
  also run over `ℚ`.
* The C library functions (`cos`, `sin`, `exp`, `log`, `sqrt`, `atan2`) and the
  constant `PI` of `eri_def.h` are the fields of a record `Libm α` handed to
  every function. A theorem that needs a property of one of them says so.
* A C array (`double*`, `fftw_complex*`) is a total map from indices to
  values; `a[i] = v` is `Function.update a i v`. Storage returned by `malloc`
  holds indeterminate values: `ERI_FSBT_Init` receives them as `raw`.
* `fftw_complex` is `double[2]`, here a pair `(re, im)`.
* The C `int`s of this file are counts and indices: they are natural numbers,
  and index arithmetic is taken without wrap-around; the `Outcome` of a call
  (below) is where the range of `int` is accounted for.
* `for (i = 0; i < n; i++) body` is `forLoop n body`.
* `assert` aborts the program: a function containing one returns `Option`.
* `malloc` and `fftw_malloc` are taken to succeed, and the scratch buffers
  `g_tmp_in`, `g_tmp_out` (of `ERI_NGRIDMAX` cells, a constant of `eri_def.h`) are
  taken to be long enough: every index below `ngrid` is in bounds.
* The DFT of FFTW is the finite sum `fftw_backward`, built on the same `cos`,
  `sin` and `PI`.
* The transform functions return `void` and have no error path. Where a claim
  speaks of a failure, a call is read as an `Outcome`: it is `returned` when its
  reads of the context lie inside the storage `ERI_FSBT_Init` allocates (the
  table offset being computed within the range of `int`) and every argument of
  `exp` is in the range where `exp` of a `double` is finite, `overflowed` when
  such an argument is beyond that range, and `undefined` when a read lies
  outside the storage.

The file has three parts: the embedding of the source, auxiliary definitions
(concrete inputs, closed forms of what the code computes, and the wording of the
specification where a claim is a comparison with it), and the theorems.
-/

namespace FSBT

/-! ## Primitives -/

/-- The `fftw_complex` type of FFTW, `double[2]`: real part, imaginary part. -/
abbrev Cplx (α : Type) := α × α

/-- The C mathematical library and the constant `PI` (defined in `eri_def.h`). -/
structure Libm (α : Type) where
  PI : α
  cos : α → α
  sin : α → α
  exp : α → α
  log : α → α
  sqrt : α → α
  atan2 : α → α → α

/-- The loop `for (i = 0; i < n; i++) s = body i s`. -/
def forLoop {σ : Type} (n : Nat) (body : Nat → σ → σ) (s : σ) : σ :=
  match n with
  | 0 => s
  | k + 1 => body k (forLoop k body s)

/-- The loop `for (i = 0; i < n; i++)` whose body may abort. -/
def forLoopM {σ : Type} (n : Nat) (body : Nat → σ → Option σ) (s : σ) : Option σ :=
  match n with
  | 0 => some s
  | k + 1 => (forLoopM k body s).bind (body k)

variable {α : Type} [Field α]

/-! ## `M_func` (lines 59-118) -/

/-- The phase `p1` of `M_func`, lines 78-86 (`n = 10`). -/
def M_func_p1 (F : Libm α) (t : α) : α :=
  let n : Nat := 10
  let nh : α := 0.5 + (n : α)
  let rr : α := nh * nh + t * t
  let r : α := F.sqrt rr
  let phi : α := F.atan2 (2.0 * t) (2.0 * nh)
  let p1 : α := t * (1.0 - F.log r) - phi * (n : α)
    + (F.sin phi - (F.sin (3.0 * phi) - F.sin (5.0 * phi) / 3.5 / rr) / 30.0 / rr) / 12.0 / r
  forLoop n (fun j p1 => p1 + F.atan2 (2.0 * t) (1.0 + 2.0 * (j : α))) p1

/-- The phase `p2` of `M_func`, lines 89-90. -/
def M_func_p2 (F : Libm α) (t : α) : α :=
  let e : α := F.exp (F.PI * t)
  F.atan2 (e - 1.0) (e + 1.0)

/-- The accumulator `prod` of `M_func` after its two loops, lines 92-112. -/
def M_func_prod (F : Libm α) (t : α) (l p : Nat) : Cplx α :=
  let prod : Cplx α := (1.0 / F.sqrt (8.0 * F.PI), 0.0)
  let ci : α := -t
  let prod := forLoop p (fun j prod =>
    let cr : α := 0.5 + (j : α)
    let re := prod.1 * cr - prod.2 * ci
    let im := prod.1 * ci + prod.2 * cr
    (re, im)) prod
  let ci : α := t
  forLoop l (fun j prod =>
    let cr : α := 1.5 + ((2 * j : Nat) : α) - (p : α)
    let norm := cr * cr + ci * ci
    let re := (prod.1 * cr + prod.2 * ci) / norm
    let im := (prod.2 * cr - prod.1 * ci) / norm
    (re, im)) prod

/-- The body of `M_func` after its assertion, lines 73-117; `p = l - m`. -/
def M_func_body (F : Libm α) (t : α) (l m : Nat) : Cplx α :=
  let p : Nat := l - m
  let cp := F.cos (F.PI * (p : α) / 2.0)
  let sp := F.sin (F.PI * (p : α) / 2.0)
  let p1 := M_func_p1 F t
  let p2 := M_func_p2 F t
  let prod := M_func_prod F t l p
  let cr := cp * F.cos (p1 - p2) + sp * F.cos (p1 + p2)
  let ci := cp * F.sin (p1 - p2) + sp * F.sin (p1 + p2)
  (prod.1 * cr - prod.2 * ci, prod.1 * ci + prod.2 * cr)

/-- The function `M_func`: `assert( m <= l )`, then the body. -/
def M_func (F : Libm α) (t : α) (l m : Nat) : Option (Cplx α) :=
  if m ≤ l then some (M_func_body F t l m) else none

/-! ## The context and `ERI_FSBT_Init` (lines 36-49, 141-202) -/

/-- The record `struct ERI_FSBT_Struct`. -/
structure ERI_FSBT_t (α : Type) where
  ngrid : Nat
  lmax : Nat
  drho : α
  dt : α
  t : Nat → α
  rho : Nat → α
  r : Nat → α
  M : Nat → Cplx α
  phi : Nat → Cplx α
  phi_m : Nat

/-- The three nested loops of `ERI_FSBT_Init` that fill the table `M`, lines 176-183. -/
def Init_fill_M (F : Libm α) (lmax ngrid : Nat) (t : Nat → α) (M : Nat → Cplx α) :
    Option (Nat → Cplx α) :=
  forLoopM lmax (fun l M =>
    forLoopM (l + 1) (fun m M =>
      let j := l * (l + 1) + m
      forLoopM ngrid (fun i M =>
        (M_func F (t i) l m).map (fun v => Function.update M (j * ngrid + i) v)) M) M) M

/-- The loop of `ERI_FSBT_Init` that fills `rho` and `r`, lines 187-191. -/
def Init_fill_rho (F : Libm α) (ngrid : Nat) (rho0 drho : α) (rr : (Nat → α) × (Nat → α)) :
    (Nat → α) × (Nat → α) :=
  forLoop ngrid (fun i rr =>
    let rho := rho0 + drho * (i : α)
    (Function.update rr.1 i rho, Function.update rr.2 i (F.exp rho))) rr

/-- The function `ERI_FSBT_Init`. `raw` is the freshly allocated storage, with
indeterminate contents; allocation is taken to succeed. The result is `none`
when the assertion of `M_func` fails. -/
def ERI_FSBT_Init (F : Libm α) (raw : ERI_FSBT_t α) (lmax ngrid : Nat) (rho0 dt : α) :
    Option (ERI_FSBT_t α) :=
  let t0 : α := (-0.5) * dt * (ngrid : α)
  let t := forLoop ngrid (fun i t => Function.update t i (t0 + dt * (i : α))) raw.t
  match Init_fill_M F lmax ngrid t raw.M with
  | none => none
  | some M =>
    let drho : α := 2.0 * F.PI / (ngrid : α) / dt
    let rr := Init_fill_rho F ngrid rho0 drho (raw.rho, raw.r)
    some { ngrid := ngrid, lmax := lmax, drho := drho, dt := dt,
           t := t, rho := rr.1, r := rr.2, M := M,
           phi := raw.phi, phi_m := raw.phi_m }

/-! ## The transform (lines 33-34, 240-402) -/

/-- Modelled from the spec: the external complex DFT primitive
(`fftw_plan_dft_1d` with `FFTW_BACKWARD`, then `fftw_execute`), which is not part
of the sources. Backward convention, kernel `exp(+i·2π·jk/n)`, no normalisation:
`out[k] = Σ_{j<n} in[j]·exp(+i·2π·jk/n)` for `k < n`; the rest of `out` is
untouched. -/
def fftw_backward (F : Libm α) (n : Nat) (inp out : Nat → Cplx α) : Nat → Cplx α :=
  fun k =>
    if k < n then
      (∑ j in Finset.range n,
          ((inp j).1 * F.cos (2 * F.PI * ((j * k : Nat) : α) / (n : α))
            - (inp j).2 * F.sin (2 * F.PI * ((j * k : Nat) : α) / (n : α))),
       ∑ j in Finset.range n,
          ((inp j).1 * F.sin (2 * F.PI * ((j * k : Nat) : α) / (n : α))
            + (inp j).2 * F.cos (2 * F.PI * ((j * k : Nat) : α) / (n : α))))
    else out k

/-- The program state the transform functions act on: the context `*ptr` and
the two file-scope scratch buffers `g_tmp_in`, `g_tmp_out`. -/
structure State (α : Type) where
  ctx : ERI_FSBT_t α
  g_tmp_in : Nat → Cplx α
  g_tmp_out : Nat → Cplx α

/-- The first loop of `ERI_FSBT_Transform_Input` and of `ERI_FSBT_Transform`
(lines 259-267 and 365-373). -/
def loop_input (F : Libm α) (ngrid : Nat) (t0 : α) (rhomesh : Nat → α) (inp : Nat → α)
    (m : Nat) (tmp_in : Nat → Cplx α) : Nat → Cplx α :=
  forLoop ngrid (fun i tmp_in =>
    let rho := rhomesh i
    let p := t0 * rho
    let c := F.cos p
    let s := F.sin p
    let e := F.exp ((1.5 + (m : α)) * rho)
    Function.update tmp_in i
      (e * (inp (2 * i + 0) * c - inp (2 * i + 1) * s),
       e * (inp (2 * i + 0) * s + inp (2 * i + 1) * c))) tmp_in

/-- The kernel loop of `ERI_FSBT_Transform_Output` and of `ERI_FSBT_Transform`
(lines 306-316 and 379-389): `src` is `tmp_phi`, respectively `tmp_out`, and
`m` is `phi_m`, respectively `m`. -/
def loop_kernel (ngrid : Nat) (rho0 t0 : α) (tmesh : Nat → α) (Mmesh src : Nat → Cplx α)
    (drho : α) (F : Libm α) (l m : Nat) (tmp_in : Nat → Cplx α) : Nat → Cplx α :=
  forLoop ngrid (fun i tmp_in =>
    let t := tmesh i
    let p := rho0 * (t - t0) + rho0 * t
    let c := F.cos p
    let s := F.sin p
    let im := (l * (l + 1) + m) * ngrid + i
    let prod : Cplx α :=
      ((src i).1 * (Mmesh im).1 - (src i).2 * (Mmesh im).2,
       (src i).1 * (Mmesh im).2 + (src i).2 * (Mmesh im).1)
    Function.update tmp_in i
      (drho * (prod.1 * c - prod.2 * s), drho * (prod.1 * s + prod.2 * c))) tmp_in

/-- The last loop of `ERI_FSBT_Transform_Output` and of `ERI_FSBT_Transform`
(lines 322-330 and 393-401). -/
def loop_output (F : Libm α) (ngrid : Nat) (rho0 t0 : α) (rhomesh : Nat → α)
    (tmp_out : Nat → Cplx α) (dt : α) (m : Nat) (out : Nat → α) : Nat → α :=
  forLoop ngrid (fun i out =>
    let kap := rhomesh i
    let p := t0 * (kap - rho0)
    let c := F.cos p
    let s := F.sin p
    let e := F.exp (((m : α) - 1.5) * kap) * dt
    let out := Function.update out (2 * i + 0) (e * ((tmp_out i).1 * c - (tmp_out i).2 * s))
    Function.update out (2 * i + 1) (e * ((tmp_out i).1 * s + (tmp_out i).2 * c))) out

/-- The function `ERI_FSBT_Transform_Input`. -/
def ERI_FSBT_Transform_Input (F : Libm α) (st : State α) (inp : Nat → α) (m : Nat) : State α :=
  let ptr := st.ctx
  let ngrid := ptr.ngrid
  let t0 := ptr.t 0
  let rhomesh := ptr.rho
  let tmp_in := loop_input F ngrid t0 rhomesh inp m st.g_tmp_in
  let tmp_phi := fftw_backward F ngrid tmp_in ptr.phi
  { ctx := { ptr with phi := tmp_phi, phi_m := m },
    g_tmp_in := tmp_in,
    g_tmp_out := st.g_tmp_out }

/-- The function `ERI_FSBT_Transform_Output`: the new state and the buffer `out`. -/
def ERI_FSBT_Transform_Output (F : Libm α) (st : State α) (out : Nat → α) (l : Nat) :
    State α × (Nat → α) :=
  let ptr := st.ctx
  let ngrid := ptr.ngrid
  let rho0 := ptr.rho 0
  let t0 := ptr.t 0
  let rhomesh := ptr.rho
  let tmesh := ptr.t
  let phi_m := ptr.phi_m
  let Mmesh := ptr.M
  let tmp_phi := ptr.phi
  let drho := ptr.drho
  let dt := ptr.dt
  let tmp_in := loop_kernel ngrid rho0 t0 tmesh Mmesh tmp_phi drho F l phi_m st.g_tmp_in
  let tmp_out := fftw_backward F ngrid tmp_in st.g_tmp_out
  let out := loop_output F ngrid rho0 t0 rhomesh tmp_out dt phi_m out
  ({ ctx := ptr, g_tmp_in := tmp_in, g_tmp_out := tmp_out }, out)

/-- The function `ERI_FSBT_Transform`: the new state and the buffer `out`. -/
def ERI_FSBT_Transform (F : Libm α) (st : State α) (out : Nat → α) (inp : Nat → α)
    (l m : Nat) : State α × (Nat → α) :=
  let ptr := st.ctx
  let ngrid := ptr.ngrid
  let rho0 := ptr.rho 0
  let t0 := ptr.t 0
  let rhomesh := ptr.rho
  let tmesh := ptr.t
  let Mmesh := ptr.M
  let drho := ptr.drho
  let dt := ptr.dt
  let tmp_in := loop_input F ngrid t0 rhomesh inp m st.g_tmp_in
  let tmp_out := fftw_backward F ngrid tmp_in st.g_tmp_out
  let tmp_in := loop_kernel ngrid rho0 t0 tmesh Mmesh tmp_out drho F l m tmp_in
  let tmp_out := fftw_backward F ngrid tmp_in tmp_out
  let out := loop_output F ngrid rho0 t0 rhomesh tmp_out dt m out
  ({ ctx := ptr, g_tmp_in := tmp_in, g_tmp_out := tmp_out }, out)

/-! ## The accessors (lines 574-619) -/

/-- The function `ERI_FSBT_ngrid`. -/
def ERI_FSBT_ngrid (ptr : ERI_FSBT_t α) : Nat := ptr.ngrid

/-- The function `ERI_FSBT_lmax`. -/
def ERI_FSBT_lmax (ptr : ERI_FSBT_t α) : Nat := ptr.lmax

/-- The function `ERI_FSBT_Mesh_r`. -/
def ERI_FSBT_Mesh_r (ptr : ERI_FSBT_t α) (i : Nat) : α := ptr.r i

/-- The function `ERI_FSBT_Mesh_k`. -/
def ERI_FSBT_Mesh_k (ptr : ERI_FSBT_t α) (i : Nat) : α := ptr.r i

/-- The function `ERI_FSBT_Mesh_Array_r`: the array itself. -/
def ERI_FSBT_Mesh_Array_r (ptr : ERI_FSBT_t α) : Nat → α := ptr.r

/-- The function `ERI_FSBT_Mesh_Array_k`: the array itself. -/
def ERI_FSBT_Mesh_Array_k (ptr : ERI_FSBT_t α) : Nat → α := ptr.r

/-- The function `ERI_FSBT_Mesh_dr`. -/
def ERI_FSBT_Mesh_dr (ptr : ERI_FSBT_t α) (i : Nat) : α := ptr.r i * ptr.drho

/-- The function `ERI_FSBT_Mesh_dk`. -/
def ERI_FSBT_Mesh_dk (ptr : ERI_FSBT_t α) (i : Nat) : α := ptr.r i * ptr.drho

/-! ## `Cont_Matrix4` (`source/Cont_Matrix4.c`, lines 18-51) -/

/-- The global tables of `openmx_common.h` that `Cont_Matrix4` reads. The header is
not part of the sources: the tables are parameters. Their indices are natural
numbers. -/
structure Common (α : Type) where
  Matomnum : Nat
  M2G : Nat → Nat
  FNAN : Nat → Nat
  natn : Nat → Nat → Nat
  WhatSpecies : Nat → Nat
  F_G2M : Nat → Nat
  Spe_Total_CNO : Nat → Nat
  Spe_Specified_Num : Nat → Nat → Nat
  Spe_Trans_Orbital : Nat → Nat → Nat → Nat
  CntCoes : Nat → Nat → Nat → α

/-- A four-index array `double ****`. -/
abbrev Matrix4 (α : Type) := Nat → Nat → Nat → Nat → α

/-- The assignment `A[a][b][c][d] = v`. -/
def set4 (A : Matrix4 α) (a b c d : Nat) (v : α) : Matrix4 α :=
  fun a2 b2 c2 d2 => if a2 = a ∧ b2 = b ∧ c2 = c ∧ d2 = d then v else A a2 b2 c2 d2

/-- The accumulation of `sumS` in `Cont_Matrix4`, lines 36-44. -/
def Cont_Matrix4_sumS (G : Common α) (Mat : Matrix4 α) (Mc_AN h_AN Hwan Mh_AN al be : Nat) : α :=
  let sumS : α := 0.0
  forLoop (G.Spe_Specified_Num Hwan al) (fun p sumS =>
    let p0 := G.Spe_Trans_Orbital Hwan al p
    forLoop (G.Spe_Specified_Num Hwan be) (fun q sumS =>
      let q0 := G.Spe_Trans_Orbital Hwan be q
      let tmp0 := G.CntCoes Mh_AN al p * G.CntCoes Mh_AN be q
      sumS + tmp0 * Mat Mc_AN h_AN p0 q0) sumS) sumS

/-- The function `Cont_Matrix4`: the array `CMat` after the call. `Mat` is read
only; `Mat` and `CMat` are distinct arrays. The loop over `Mc_AN` runs from `1` to
`Matomnum`, the loop over `h_AN` from `0` to `FNAN[Gc_AN]`, both bounds included. -/
def Cont_Matrix4 (G : Common α) (Mat CMat : Matrix4 α) : Matrix4 α :=
  forLoop G.Matomnum (fun k CMat =>
    let Mc_AN := k + 1
    let Gc_AN := G.M2G Mc_AN
    forLoop (G.FNAN Gc_AN + 1) (fun h_AN CMat =>
      let Gh_AN := G.natn Gc_AN h_AN
      let Hwan := G.WhatSpecies Gh_AN
      let Mh_AN := G.F_G2M Gh_AN
      forLoop (G.Spe_Total_CNO Hwan) (fun al CMat =>
        forLoop (G.Spe_Total_CNO Hwan) (fun be CMat =>
          let sumS := Cont_Matrix4_sumS G Mat Mc_AN h_AN Hwan Mh_AN al be
          set4 CMat Mc_AN h_AN al be sumS) CMat) CMat) CMat) CMat

/-! ## Auxiliary definitions: concrete inputs, closed forms, wording of the specification -/

/-- The contracted entry in the words of the claim: the double sum over the
primitive orbitals `p`, `q` of the contracted orbitals `al`, `be`. -/
def contracted (G : Common α) (Mat : Matrix4 α) (Mc_AN h_AN al be : Nat) : α :=
  let Gh_AN := G.natn (G.M2G Mc_AN) h_AN
  let Hwan := G.WhatSpecies Gh_AN
  let Mh_AN := G.F_G2M Gh_AN
  ∑ p in Finset.range (G.Spe_Specified_Num Hwan al),
    ∑ q in Finset.range (G.Spe_Specified_Num Hwan be),
      G.CntCoes Mh_AN al p * G.CntCoes Mh_AN be q
        * Mat Mc_AN h_AN (G.Spe_Trans_Orbital Hwan al p) (G.Spe_Trans_Orbital Hwan be q)

/-- A small concrete set of global tables: one atom with one neighbour besides
itself, every species with two contracted orbitals of two primitives each. -/
def exampleCommon : Common α :=
  { Matomnum := 1, M2G := fun _ => 1, FNAN := fun _ => 1, natn := fun _ h => h + 1,
    WhatSpecies := fun _ => 0, F_G2M := fun g => g,
    Spe_Total_CNO := fun _ => 2, Spe_Specified_Num := fun _ _ => 2,
    Spe_Trans_Orbital := fun _ al p => 2 * al + p,
    CntCoes := fun _ al p => ((al + 2 * p + 1 : Nat) : α) }

/-- A concrete primitive array whose every block is symmetric: `Mat[..][..][a][b] = a + b`. -/
def exampleMat : Matrix4 α := fun _ _ a b => ((a + b : Nat) : α)

/-- Storage whose every cell holds zero, used as the concrete `raw` of the examples. -/
def zeroCtx : ERI_FSBT_t α :=
  { ngrid := 0, lmax := 0, drho := 0, dt := 0,
    t := fun _ => 0, rho := fun _ => 0, r := fun _ => 0,
    M := fun _ => (0, 0), phi := fun _ => (0, 0), phi_m := 0 }

/-- The context `ctx` with the cache slot holding `phi` and `phi_m`, as a forward
phase leaves it. -/
def with_cache (ctx : ERI_FSBT_t α) (phi : Nat → Cplx α) (phi_m : Nat) : ERI_FSBT_t α :=
  { ctx with phi := phi, phi_m := phi_m }

/-- A caller that runs the backward phase several times in a row, each call with
its own `l` and its own output buffer; the state after the last call. -/
def run_outputs (F : Libm α) (st : State α) (calls : List (Nat × (Nat → α))) : State α :=
  calls.foldl (fun s c => (ERI_FSBT_Transform_Output F s c.2 c.1).1) st

/-- The table loops of `ERI_FSBT_Init` with the assertion of `M_func` discharged. -/
def fill_M_pure (F : Libm α) (lmax ngrid : Nat) (t : Nat → α) (M : Nat → Cplx α) :
    Nat → Cplx α :=
  forLoop lmax (fun l M =>
    forLoop (l + 1) (fun m M =>
      forLoop ngrid (fun i M =>
        Function.update M ((l * (l + 1) + m) * ngrid + i) (M_func_body F (t i) l m)) M) M) M

/-- The context `ERI_FSBT_Init` returns: it always returns one, the assertion
of `M_func` never fires. -/
def Init_result (F : Libm α) (raw : ERI_FSBT_t α) (lmax ngrid : Nat) (rho0 dt : α) :
    ERI_FSBT_t α :=
  let t := forLoop ngrid
    (fun i t => Function.update t i ((-0.5) * dt * (ngrid : α) + dt * (i : α))) raw.t
  let drho : α := 2.0 * F.PI / (ngrid : α) / dt
  let rr := Init_fill_rho F ngrid rho0 drho (raw.rho, raw.r)
  { ngrid := ngrid, lmax := lmax, drho := drho, dt := dt,
    t := t, rho := rr.1, r := rr.2, M := fill_M_pure F lmax ngrid t raw.M,
    phi := raw.phi, phi_m := raw.phi_m }

/-- Below `n`, the buffer `x` is the combination `a·y + b·z` of the buffers `y`, `z`. -/
def LinComb (a b : α) (n : Nat) (x y z : Nat → Cplx α) : Prop :=
  ∀ j, j < n → x j = (a * (y j).1 + b * (z j).1, a * (y j).2 + b * (z j).2)

/-- Product of two complex numbers given as pairs. -/
def cmul (z w : Cplx α) : Cplx α := (z.1 * w.1 - z.2 * w.2, z.1 * w.2 + z.2 * w.1)

/-- The complex number `cos θ + i sin θ`. -/
def cis (F : Libm α) (θ : α) : Cplx α := (F.cos θ, F.sin θ)

/-- A complex number scaled by a real factor. -/
def cscale (e : α) (z : Cplx α) : Cplx α := (e * z.1, e * z.2)

/-- The entry `i` of the pre-DFT buffer of the forward phase in the words of the
specification: the complex input sample `in[2i] + i in[2i+1]`, scaled by
`exp((1.5+m)*rho[i])` and multiplied by `cos θ + i sin θ`. -/
def spec_forward_entry (F : Libm α) (ctx : ERI_FSBT_t α) (inp : Nat → α) (m : Nat)
    (θ : α) (i : Nat) : Cplx α :=
  cscale (F.exp ((1.5 + (m : α)) * ctx.rho i)) (cmul (inp (2 * i), inp (2 * i + 1)) (cis F θ))

/-- The entry `i` of the pre-DFT buffer of the backward phase in the words of the
specification: `intermediate[i]` times `kernelTable[l*(l+1)+cachedM][i]`, rotated
by the phase `rho[0]*(t[i]-t[0]) + rho[0]*t[i]` and scaled by `drho`. -/
def spec_backward_entry (F : Libm α) (ctx : ERI_FSBT_t α) (l : Nat) (i : Nat) : Cplx α :=
  cscale ctx.drho
    (cmul (cmul (ctx.phi i) (ctx.M ((l * (l + 1) + ctx.phi_m) * ctx.ngrid + i)))
      (cis F (ctx.rho 0 * (ctx.t i - ctx.t 0) + ctx.rho 0 * ctx.t i)))

/-- The output sample `i` of the backward phase in the words of the specification:
the DFT result `T[i]` rotated by the phase `θ` and scaled by
`exp((cachedM-1.5)*rho[i])*dt`. -/
def spec_backward_output (F : Libm α) (ctx : ERI_FSBT_t α) (T : Nat → Cplx α) (θ : α)
    (i : Nat) : Cplx α :=
  cscale (F.exp (((ctx.phi_m : α) - 1.5) * ctx.rho i) * ctx.dt) (cmul (T i) (cis F θ))

/-- The phase `p1` of `M_func` in the words of the specification: auxiliary order
`n = 10`, `r = sqrt((n+0.5)^2 + t^2)`, auxiliary angle `phi = atan2(2t, y)` in the leading
term, and the ten correction terms `atan2(2t, 1+2j)`, `j = 0..9`. The second argument
`y` of the auxiliary angle is a parameter. -/
def spec_p1 (F : Libm α) (t y : α) : α :=
  let n : Nat := 10
  let rr : α := ((n : α) + 0.5) ^ 2 + t ^ 2
  let r : α := F.sqrt rr
  let phi : α := F.atan2 (2 * t) y
  t * (1 - F.log r) - phi * (n : α)
    + (F.sin phi - (F.sin (3 * phi) - F.sin (5 * phi) / 3.5 / rr) / 30 / rr) / 12 / r
    + ∑ j in Finset.range n, F.atan2 (2 * t) (1 + 2 * (j : α))

/-- A pair of doubles read as a complex number. -/
def toC (z : Cplx ℝ) : ℂ := ⟨z.1, z.2⟩

/-- The squared norm `norm = cr*cr + ci*ci` of the divisor in the denominator loop
of `M_func`, lines 104-107: `ci = t`, `cr = 1.5 + 2j - p`. -/
def M_func_norm (t : α) (p j : Nat) : α :=
  let ci : α := t
  let cr : α := 1.5 + ((2 * j : Nat) : α) - (p : α)
  cr * cr + ci * ci

/-- The quantity `r = sqrt(nh*nh + t*t)` of `M_func`, lines 78-80, the argument of
`log` in line 82. -/
def M_func_r (F : Libm α) (t : α) : α :=
  let n : Nat := 10
  let nh : α := 0.5 + (n : α)
  let rr : α := nh * nh + t * t
  F.sqrt rr

/-- The number of `fftw_complex` cells that `ERI_FSBT_Init` allocates for the table
`M`, lines 161-162: `lmax*(lmax+1)*ngrid`. -/
def Init_M_cells (lmax ngrid : Nat) : Nat := lmax * (lmax + 1) * ngrid

/-- The flat offset of the table entry of `(l, m)` at column `i`: `j*ngrid+i` with
`j = l*(l+1)+m` in `ERI_FSBT_Init` (lines 178-180), `(l*(l+1)+m)*ngrid+i` in the
transform (lines 311, 384). -/
def M_offset (l m ngrid i : Nat) : Nat := (l * (l + 1) + m) * ngrid + i

/-! ## Outcomes of the transform operations -/

theorem forLoop_zero {σ : Type} (body : Nat → σ → σ) (s : σ) : forLoop 0 body s = s := rfl

theorem forLoop_succ {σ : Type} (n : Nat) (body : Nat → σ → σ) (s : σ) :
    forLoop (n + 1) body s = body n (forLoop n body s) := rfl

/-- Two loops whose bodies agree below the bound compute the same state. -/
theorem forLoop_congr {σ : Type} (n : Nat) (body body2 : Nat → σ → σ) (s : σ)
    (h : ∀ i, i < n → ∀ x, body i x = body2 i x) :
    forLoop n body s = forLoop n body2 s := by
  induction n with
  | zero => rfl
  | succ k ih =>
    rw [forLoop_succ, forLoop_succ, ih (fun i hi x => h i (Nat.lt_succ_of_lt hi) x),
      h k (Nat.lt_succ_self k)]

/-- A loop that stores `f i` at index `i`. -/
theorem forLoop_store {β : Type} (n : Nat) (f : Nat → β) (b : Nat → β) (k : Nat) :
    forLoop n (fun i b => Function.update b i (f i)) b k = if k < n then f k else b k := by
  induction n with
  | zero => simp [forLoop]
  | succ j ih =>
    rw [forLoop_succ]
    by_cases hk : k = j
    · subst hk; simp
    · rw [Function.update_noteq hk, ih]
      by_cases h1 : k < j
      · simp [h1, Nat.lt_succ_of_lt h1]
      · have h2 : ¬ k < j + 1 := by omega
        simp [h1, h2]

/-- A loop that stores `a i` at index `2i` and `b i` at index `2i+1`. -/
theorem forLoop_store_pair {β : Type} (n : Nat) (a b : Nat → β) (o : Nat → β) (k : Nat) :
    forLoop n (fun i o =>
        Function.update (Function.update o (2 * i + 0) (a i)) (2 * i + 1) (b i)) o k
      = if k < 2 * n then (if k % 2 = 0 then a (k / 2) else b (k / 2)) else o k := by
  induction n with
  | zero => simp [forLoop]
  | succ j ih =>
    rw [forLoop_succ]
    by_cases hk1 : k = 2 * j + 1
    · subst hk1
      have e1 : (2 * j + 1) % 2 = 1 := by omega
      have e2 : (2 * j + 1) / 2 = j := by omega
      have e3 : 2 * j + 1 < 2 * (j + 1) := by omega
      have e4 : ¬ (2 * j + 1) % 2 = 0 := by omega
      rw [Function.update_same, if_pos e3, if_neg e4, e2]
    · rw [Function.update_noteq hk1]
      by_cases hk0 : k = 2 * j + 0
      · subst hk0
        have e1 : (2 * j + 0) % 2 = 0 := by omega
        have e2 : (2 * j + 0) / 2 = j := by omega
        have e3 : 2 * j + 0 < 2 * (j + 1) := by omega
        rw [Function.update_same, if_pos e3, if_pos e1, e2]
      · rw [Function.update_noteq hk0, ih]
        by_cases h1 : k < 2 * j
        · have h2 : k < 2 * (j + 1) := by omega
          simp [h1, h2]
        · have h2 : ¬ k < 2 * (j + 1) := by omega
          simp [h1, h2]

/-- A loop whose body never aborts below the bound is a plain loop. -/
theorem forLoopM_eq_some {σ : Type} (n : Nat) (body : Nat → σ → Option σ)
    (body2 : Nat → σ → σ) (s : σ)
    (h : ∀ i, i < n → ∀ x, body i x = some (body2 i x)) :
    forLoopM n body s = some (forLoop n body2 s) := by
  induction n with
  | zero => rfl
  | succ k ih =>
    show (forLoopM k body s).bind (body k) = some (body2 k (forLoop k body2 s))
    rw [ih (fun i hi x => h i (Nat.lt_succ_of_lt hi) x)]
    exact h k (Nat.lt_succ_self k) _

/-- A loop leaves an address alone when no iteration owns it. -/
theorem forLoop_frame {β : Type} (P : Nat → Nat → Prop) (body : Nat → (Nat → β) → (Nat → β))
    (hframe : ∀ k s x, ¬ P k x → body k s x = s x)
    (n : Nat) (s : Nat → β) (x : Nat) (h : ∀ k, k < n → ¬ P k x) :
    forLoop n body s x = s x := by
  induction n with
  | zero => rfl
  | succ j ih =>
    rw [forLoop_succ, hframe j _ x (h j (Nat.lt_succ_self j))]
    exact ih (fun k hk => h k (Nat.lt_succ_of_lt hk))

/-- After a loop, an address owned by iteration `k` alone holds what `k` stored. -/
theorem forLoop_owned {β : Type} (P : Nat → Nat → Prop) (val : Nat → Nat → β)
    (body : Nat → (Nat → β) → (Nat → β))
    (hframe : ∀ k s x, ¬ P k x → body k s x = s x)
    (hval : ∀ k s x, P k x → body k s x = val k x)
    (n : Nat) (s : Nat → β) (k x : Nat) (hk : k < n) (hP : P k x)
    (hlater : ∀ j, k < j → j < n → ¬ P j x) :
    forLoop n body s x = val k x := by
  induction n with
  | zero => omega
  | succ j ih =>
    rw [forLoop_succ]
    by_cases hkj : k = j
    · subst hkj; exact hval k _ x hP
    · have hlt : k < j := by omega
      rw [hframe j _ x (hlater j hlt (Nat.lt_succ_self j))]
      exact ih hlt (fun i h1 h2 => hlater i h1 (Nat.lt_succ_of_lt h2))

/-! ## Index arithmetic of the kernel table -/

/-- Offsets `j * n + i` with `i < n` determine the row `j` and the column `i`. -/
theorem offset_inj {n j i j2 i2 : Nat} (hi : i < n) (hi2 : i2 < n)
    (h : j * n + i = j2 * n + i2) : j = j2 ∧ i = i2 := by
  have key : ∀ a b x y : Nat, x < n → a < b → a * n + x < b * n + y := by
    intro a b x y hx hab
    have h1 : (a + 1) * n ≤ b * n := Nat.mul_le_mul_right n hab
    rw [Nat.succ_mul] at h1
    omega
  rcases Nat.lt_trichotomy j j2 with hlt | heq | hgt
  · have := key j j2 i i2 hi hlt; omega
  · subst heq; exact ⟨rfl, by omega⟩
  · have := key j2 j i2 i hi2 hgt; omega

/-- The rows of a larger `l` lie strictly above the rows of a smaller one. -/
theorem row_lt {l m l2 m2 : Nat} (hm : m ≤ l) (hl : l < l2) :
    l * (l + 1) + m < l2 * (l2 + 1) + m2 := by
  have h1 : (l + 1) * (l + 1 + 1) ≤ l2 * (l2 + 1) := Nat.mul_le_mul hl (Nat.succ_le_succ hl)
  have h2 : (l + 1) * (l + 1 + 1) = l * (l + 1) + (2 * l + 2) := by ring
  omega

/-- Row indices `l * (l + 1) + m` with `m ≤ l` determine `l` and `m`. -/
theorem row_inj {l m l2 m2 : Nat} (hm : m ≤ l) (hm2 : m2 ≤ l2)
    (h : l * (l + 1) + m = l2 * (l2 + 1) + m2) : l = l2 ∧ m = m2 := by
  rcases Nat.lt_trichotomy l l2 with hlt | heq | hgt
  · have := @row_lt l m l2 m2 hm hlt; omega
  · subst heq; exact ⟨rfl, by omega⟩
  · have := @row_lt l2 m2 l m hm2 hgt; omega

/-! ## The kernel table after `ERI_FSBT_Init` -/

theorem Init_fill_M_eq (F : Libm α) (lmax ngrid : Nat) (t : Nat → α) (M : Nat → Cplx α) :
    Init_fill_M F lmax ngrid t M = some (fill_M_pure F lmax ngrid t M) := by
  unfold Init_fill_M fill_M_pure
  apply forLoopM_eq_some
  intro l _ M1
  apply forLoopM_eq_some
  intro m hm M2
  apply forLoopM_eq_some
  intro i _ M3
  have hle : m ≤ l := by omega
  simp [M_func, hle]

/-- One row of the table: the innermost loop stores the kernel values of `(l, m)`. -/
theorem fill_row {β : Type} (ngrid j : Nat) (v : Nat → β) (M : Nat → β) (x : Nat) :
    forLoop ngrid (fun i M => Function.update M (j * ngrid + i) (v i)) M x
      = if j * ngrid ≤ x ∧ x < j * ngrid + ngrid then v (x - j * ngrid) else M x := by
  by_cases hx : j * ngrid ≤ x ∧ x < j * ngrid + ngrid
  · rw [if_pos hx]
    refine forLoop_owned (fun i y => y = j * ngrid + i) (fun i _ => v i) _ ?_ ?_
      ngrid M (x - j * ngrid) x (by omega) (by omega) ?_ |>.trans ?_
    · intro k s y hy; exact Function.update_noteq hy _ _
    · intro k s y hy; subst hy; exact Function.update_same _ _ _
    · intro i h1 _ h3; omega
    · rfl
  · rw [if_neg hx]
    refine forLoop_frame (fun i y => y = j * ngrid + i) _ ?_ ngrid M x ?_
    · intro k s y hy; exact Function.update_noteq hy _ _
    · intro k hk h3; exact hx ⟨by omega, by omega⟩

/-- After the table loops, the entry of `(l, m)` at column `i` is the kernel value
at `t i`, for every `l < lmax`, `m ≤ l`, `i < ngrid`. -/
theorem fill_M_pure_at (F : Libm α) (lmax ngrid : Nat) (t : Nat → α) (M : Nat → Cplx α)
    (l m i : Nat) (hl : l < lmax) (hm : m ≤ l) (hi : i < ngrid) :
    fill_M_pure F lmax ngrid t M ((l * (l + 1) + m) * ngrid + i) = M_func_body F (t i) l m := by
  unfold fill_M_pure
  -- the outer loop: iteration `l` owns the rows `l * (l + 1) + m`, `m ≤ l`
  refine (forLoop_owned
    (fun l2 y => ∃ m2 i2, m2 ≤ l2 ∧ i2 < ngrid ∧ y = (l2 * (l2 + 1) + m2) * ngrid + i2)
    (fun l2 y => M_func_body F (t (y % ngrid)) l2 (y / ngrid - l2 * (l2 + 1))) _ ?_ ?_
    lmax M l _ hl ⟨m, i, hm, hi, rfl⟩ ?_).trans ?_
  · -- frame of the middle loop
    intro l2 s y hy
    refine forLoop_frame (fun m2 z => ∃ i2, i2 < ngrid ∧ z = (l2 * (l2 + 1) + m2) * ngrid + i2)
      _ ?_ (l2 + 1) s y ?_
    · intro m2 s2 z hz
      rw [fill_row, if_neg]
      rintro ⟨h1, h2⟩
      exact hz ⟨z - (l2 * (l2 + 1) + m2) * ngrid, by omega, by omega⟩
    · rintro m2 hm2 ⟨i2, hi2, rfl⟩
      exact hy ⟨m2, i2, by omega, hi2, rfl⟩
  · -- value stored by the middle loop
    rintro l2 s y ⟨m2, i2, hm2, hi2, rfl⟩
    refine (forLoop_owned
      (fun m3 z => ∃ i3, i3 < ngrid ∧ z = (l2 * (l2 + 1) + m3) * ngrid + i3)
      (fun m3 z => M_func_body F (t (z % ngrid)) l2 m3) _ ?_ ?_
      (l2 + 1) s m2 _ (by omega) ⟨i2, hi2, rfl⟩ ?_).trans ?_
    · intro m3 s2 z hz
      rw [fill_row, if_neg]
      rintro ⟨h1, h2⟩
      exact hz ⟨z - (l2 * (l2 + 1) + m3) * ngrid, by omega, by omega⟩
    · rintro m3 s2 z ⟨i3, hi3, rfl⟩
      rw [fill_row, if_pos ⟨by omega, by omega⟩]
      have e1 : (l2 * (l2 + 1) + m3) * ngrid + i3 - (l2 * (l2 + 1) + m3) * ngrid = i3 := by omega
      have e2 : ((l2 * (l2 + 1) + m3) * ngrid + i3) % ngrid = i3 := by
        rw [Nat.add_comm, Nat.add_mul_mod_self_right, Nat.mod_eq_of_lt hi3]
      rw [e1]
      show _ = M_func_body F (t (_ % ngrid)) l2 m3
      rw [e2]
    · rintro m3 h1 _ ⟨i3, hi3, h3⟩
      have := (offset_inj hi2 hi3 h3).1
      omega
    · have e2 : ((l2 * (l2 + 1) + m2) * ngrid + i2) % ngrid = i2 := by
        rw [Nat.add_comm, Nat.add_mul_mod_self_right, Nat.mod_eq_of_lt hi2]
      have e3 : ((l2 * (l2 + 1) + m2) * ngrid + i2) / ngrid = l2 * (l2 + 1) + m2 := by
        rw [Nat.add_comm, Nat.add_mul_div_right _ _ (by omega : 0 < ngrid),
          Nat.div_eq_of_lt hi2, Nat.zero_add]
      show _ = M_func_body F (t (_ % ngrid)) l2 (_ / ngrid - l2 * (l2 + 1))
      rw [e2, e3, Nat.add_sub_cancel_left]
  · rintro l3 h1 _ ⟨m3, i3, hm3, hi3, h3⟩
    have h4 := (offset_inj hi hi3 h3).1
    have := @row_lt l m l3 m3 hm h1
    omega
  · have e2 : ((l * (l + 1) + m) * ngrid + i) % ngrid = i := by
      rw [Nat.add_comm, Nat.add_mul_mod_self_right, Nat.mod_eq_of_lt hi]
    have e3 : ((l * (l + 1) + m) * ngrid + i) / ngrid = l * (l + 1) + m := by
      rw [Nat.add_comm, Nat.add_mul_div_right _ _ (by omega : 0 < ngrid),
        Nat.div_eq_of_lt hi, Nat.zero_add]
    show M_func_body F (t (_ % ngrid)) l (_ / ngrid - l * (l + 1)) = _
    rw [e2, e3, Nat.add_sub_cancel_left]

/-! ## The meshes after `ERI_FSBT_Init` -/

theorem Init_fill_rho_fst (F : Libm α) (ngrid : Nat) (rho0 drho : α)
    (rr : (Nat → α) × (Nat → α)) (k : Nat) :
    (Init_fill_rho F ngrid rho0 drho rr).1 k
      = if k < ngrid then rho0 + drho * (k : α) else rr.1 k := by
  unfold Init_fill_rho
  induction ngrid with
  | zero => simp [forLoop]
  | succ j ih =>
    rw [forLoop_succ]
    by_cases hk : k = j
    · subst hk; simp
    · show Function.update _ j _ k = _
      rw [Function.update_noteq hk, ih]
      by_cases h1 : k < j
      · simp [h1, Nat.lt_succ_of_lt h1]
      · have h2 : ¬ k < j + 1 := by omega
        simp [h1, h2]

theorem Init_fill_rho_snd (F : Libm α) (ngrid : Nat) (rho0 drho : α)
    (rr : (Nat → α) × (Nat → α)) (k : Nat) :
    (Init_fill_rho F ngrid rho0 drho rr).2 k
      = if k < ngrid then F.exp (rho0 + drho * (k : α)) else rr.2 k := by
  unfold Init_fill_rho
  induction ngrid with
  | zero => simp [forLoop]
  | succ j ih =>
    rw [forLoop_succ]
    by_cases hk : k = j
    · subst hk; simp
    · show Function.update _ j _ k = _
      rw [Function.update_noteq hk, ih]
      by_cases h1 : k < j
      · simp [h1, Nat.lt_succ_of_lt h1]
      · have h2 : ¬ k < j + 1 := by omega
        simp [h1, h2]

theorem Init_eq (F : Libm α) (raw : ERI_FSBT_t α) (lmax ngrid : Nat) (rho0 dt : α) :
    ERI_FSBT_Init F raw lmax ngrid rho0 dt = some (Init_result F raw lmax ngrid rho0 dt) := by
  unfold ERI_FSBT_Init Init_result
  simp only [Init_fill_M_eq]

theorem Init_result_t (F : Libm α) (raw : ERI_FSBT_t α) (lmax ngrid : Nat) (rho0 dt : α)
    (k : Nat) :
    (Init_result F raw lmax ngrid rho0 dt).t k
      = if k < ngrid then (-0.5) * dt * (ngrid : α) + dt * (k : α) else raw.t k := by
  show forLoop ngrid _ raw.t k = _
  rw [forLoop_store]

theorem Init_result_rho (F : Libm α) (raw : ERI_FSBT_t α) (lmax ngrid : Nat) (rho0 dt : α)
    (k : Nat) :
    (Init_result F raw lmax ngrid rho0 dt).rho k
      = if k < ngrid then rho0 + 2.0 * F.PI / (ngrid : α) / dt * (k : α) else raw.rho k := by
  show (Init_fill_rho F ngrid rho0 _ (raw.rho, raw.r)).1 k = _
  rw [Init_fill_rho_fst]

theorem Init_result_r (F : Libm α) (raw : ERI_FSBT_t α) (lmax ngrid : Nat) (rho0 dt : α)
    (k : Nat) :
    (Init_result F raw lmax ngrid rho0 dt).r k
      = if k < ngrid then F.exp (rho0 + 2.0 * F.PI / (ngrid : α) / dt * (k : α))
        else raw.r k := by
  show (Init_fill_rho F ngrid rho0 _ (raw.rho, raw.r)).2 k = _
  rw [Init_fill_rho_snd]

/-! ## Claims about `ERI_FSBT_Init` -/

/-- C1 (mesh reciprocity): for every context built by `ERI_FSBT_Init` with
`ngrid = N ≥ 1` and `dt ≠ 0` (any `lmax`, any `rho0`, any prior contents of the
storage), `ERI_FSBT_Init` returns a context and its stored fields satisfy
`drho * dt * ngrid = 2 * PI` exactly in real arithmetic. -/
theorem C1_mesh_reciprocity (F : Libm ℝ) (raw : ERI_FSBT_t ℝ) (lmax N : Nat) (rho0 dt : ℝ)
    (hN : 1 ≤ N) (hdt : dt ≠ 0) :
    ∃ ctx, ERI_FSBT_Init F raw lmax N rho0 dt = some ctx ∧
      ctx.drho * ctx.dt * (ctx.ngrid : ℝ) = 2 * F.PI := by
  refine ⟨_, Init_eq F raw lmax N rho0 dt, ?_⟩
  have hN0 : (N : ℝ) ≠ 0 := by
    have : 0 < N := hN
    exact_mod_cast this.ne'
  show 2.0 * F.PI / (N : ℝ) / dt * dt * (N : ℝ) = 2 * F.PI
  field_simp
  norm_num
  ring

/-- C1 at the scenario of the specification (`lmax = 3`, `ngrid = 256`,
`rho0 = -5`, `dt = 0.05`) with the real library functions. -/
theorem C1_mesh_reciprocity_witness :
    (1 ≤ 256 ∧ (0.05 : ℝ) ≠ 0) ∧
    ∃ ctx, ERI_FSBT_Init
        (Libm.mk Real.pi Real.cos Real.sin Real.exp Real.log Real.sqrt
          (fun y x => Complex.arg ⟨x, y⟩))
        zeroCtx 3 256 (-5) 0.05 = some ctx ∧
      ctx.drho * ctx.dt * (ctx.ngrid : ℝ) = 2 * Real.pi :=
  ⟨⟨by norm_num, by norm_num⟩,
    C1_mesh_reciprocity _ zeroCtx 3 256 (-5) 0.05 (by norm_num) (by norm_num)⟩

/-- C6 (mesh formulas): `ERI_FSBT_Init lmax N rho0 dt` returns a context whose
stored `ngrid`, `lmax`, `drho`, `dt` are `N`, `lmax`, `2*PI/(N*dt)`, `dt`, and for
every index `i < N`: `t[i] = -0.5*dt*N + dt*i`, `rho[i] = rho0 + drho*i` and
`r[i] = exp(rho[i])`. -/
theorem C6_mesh_formulas (F : Libm ℝ) (raw : ERI_FSBT_t ℝ) (lmax N : Nat) (rho0 dt : ℝ) :
    ∃ ctx, ERI_FSBT_Init F raw lmax N rho0 dt = some ctx ∧
      ctx.ngrid = N ∧ ctx.lmax = lmax ∧ ctx.drho = 2 * F.PI / ((N : ℝ) * dt) ∧ ctx.dt = dt ∧
      ∀ i, i < N →
        ctx.t i = -0.5 * dt * (N : ℝ) + dt * (i : ℝ) ∧
        ctx.rho i = rho0 + ctx.drho * (i : ℝ) ∧
        ctx.r i = F.exp (ctx.rho i) := by
  refine ⟨_, Init_eq F raw lmax N rho0 dt, rfl, rfl, ?_, rfl, ?_⟩
  · show 2.0 * F.PI / (N : ℝ) / dt = 2 * F.PI / ((N : ℝ) * dt)
    rw [div_div]
    norm_num
  · intro i hi
    rw [Init_result_t, Init_result_rho, Init_result_r, if_pos hi, if_pos hi, if_pos hi]
    refine ⟨by norm_num, rfl, rfl⟩

/-- C7, as stated, fails: with `N = 2`, `dt = 1` the phase mesh is `t = [-1, 0]`,
so `t[N-1-0] = t[1] = 0` while `-t[0] = 1`. -/
theorem C7_counterexample :
    ∃ ctx, ERI_FSBT_Init
        (Libm.mk Real.pi Real.cos Real.sin Real.exp Real.log Real.sqrt
          (fun y x => Complex.arg ⟨x, y⟩))
        zeroCtx 1 2 0 1 = some ctx ∧
      ctx.t 0 = -1 ∧ ctx.t 1 = 0 ∧ ctx.t (2 - 1 - 0) ≠ - ctx.t 0 := by
  refine ⟨_, Init_eq _ zeroCtx 1 2 0 1, ?_, ?_, ?_⟩
  · rw [Init_result_t]; norm_num
  · rw [Init_result_t]; norm_num
  · rw [Init_result_t, Init_result_t]; norm_num

/-- C7, amended: the phase mesh built by `ERI_FSBT_Init` is symmetric about
`-dt/2`, not about zero: for every `N`, every `dt` and every index `i < N`,
`t[N-1-i] = -t[i] - dt`. -/
theorem C7_phase_mesh_reflection (F : Libm ℝ) (raw : ERI_FSBT_t ℝ) (lmax N : Nat)
    (rho0 dt : ℝ) (i : Nat) (hi : i < N) :
    ∃ ctx, ERI_FSBT_Init F raw lmax N rho0 dt = some ctx ∧
      ctx.t (N - 1 - i) = - ctx.t i - dt := by
  refine ⟨_, Init_eq F raw lmax N rho0 dt, ?_⟩
  have h1 : N - 1 - i < N := by omega
  rw [Init_result_t, Init_result_t, if_pos hi, if_pos h1]
  have h2 : ((N - 1 - i : Nat) : ℝ) = (N : ℝ) - 1 - (i : ℝ) := by
    rw [Nat.sub_sub, Nat.cast_sub (by omega)]
    push_cast
    ring
  rw [h2]
  norm_num
  ring

/-- C7 amended, at `N = 4`, `dt = 0.05`, `i = 1`. -/
theorem C7_phase_mesh_reflection_witness :
    1 < 4 ∧
    ∃ ctx, ERI_FSBT_Init
        (Libm.mk Real.pi Real.cos Real.sin Real.exp Real.log Real.sqrt
          (fun y x => Complex.arg ⟨x, y⟩))
        zeroCtx 3 4 (-5) 0.05 = some ctx ∧
      ctx.t (4 - 1 - 1) = - ctx.t 1 - 0.05 :=
  ⟨by norm_num, C7_phase_mesh_reflection _ zeroCtx 3 4 (-5) 0.05 1 (by norm_num)⟩

/-- C8 (mesh monotonicity): for every context built by `ERI_FSBT_Init` with
`N ≥ 1` and `dt > 0`, with the real exponential and a positive `PI`, the three
mesh sequences `t`, `rho`, `r` are strictly increasing in the index
(`t[i] < t[i+1]`, `rho[i] < rho[i+1]`, `r[i] < r[i+1]` for `i + 1 < N`) and every
`r[i]`, `i < N`, is strictly positive. -/
theorem C8_mesh_monotone (F : Libm ℝ) (raw : ERI_FSBT_t ℝ) (lmax N : Nat) (rho0 dt : ℝ)
    (hpi : 0 < F.PI) (hexp : F.exp = Real.exp) (hN : 1 ≤ N) (hdt : 0 < dt) :
    ∃ ctx, ERI_FSBT_Init F raw lmax N rho0 dt = some ctx ∧
      (∀ i, i + 1 < N →
        ctx.t i < ctx.t (i + 1) ∧ ctx.rho i < ctx.rho (i + 1) ∧ ctx.r i < ctx.r (i + 1)) ∧
      (∀ i, i < N → 0 < ctx.r i) := by
  refine ⟨_, Init_eq F raw lmax N rho0 dt, ?_, ?_⟩
  · intro i hi
    have hi0 : i < N := by omega
    have hN0 : (0 : ℝ) < (N : ℝ) := by exact_mod_cast hN
    have hdrho : 0 < 2.0 * F.PI / (N : ℝ) / dt := by
      apply div_pos (div_pos _ hN0) hdt
      norm_num
      exact hpi
    have hrho : rho0 + 2.0 * F.PI / (N : ℝ) / dt * (i : ℝ)
        < rho0 + 2.0 * F.PI / (N : ℝ) / dt * ((i + 1 : Nat) : ℝ) := by
      push_cast
      nlinarith
    rw [Init_result_t, Init_result_t, Init_result_rho, Init_result_rho, Init_result_r,
      Init_result_r, if_pos hi, if_pos hi0, if_pos hi, if_pos hi0, if_pos hi, if_pos hi0]
    refine ⟨?_, hrho, ?_⟩
    · push_cast
      nlinarith
    · rw [hexp]
      exact Real.exp_lt_exp.mpr hrho
  · intro i hi
    rw [Init_result_r, if_pos hi, hexp]
    exact Real.exp_pos _

/-- C8 at the scenario of the specification (`lmax = 3`, `ngrid = 256`,
`rho0 = -5`, `dt = 0.05`) with the real library functions. -/
theorem C8_mesh_monotone_witness :
    ((0 : ℝ) < Real.pi ∧ Real.exp = Real.exp ∧ 1 ≤ 256 ∧ (0 : ℝ) < 0.05) ∧
    ∃ ctx, ERI_FSBT_Init
        (Libm.mk Real.pi Real.cos Real.sin Real.exp Real.log Real.sqrt
          (fun y x => Complex.arg ⟨x, y⟩))
        zeroCtx 3 256 (-5) 0.05 = some ctx ∧
      (∀ i, i + 1 < 256 →
        ctx.t i < ctx.t (i + 1) ∧ ctx.rho i < ctx.rho (i + 1) ∧ ctx.r i < ctx.r (i + 1)) ∧
      (∀ i, i < 256 → 0 < ctx.r i) :=
  ⟨⟨Real.pi_pos, rfl, by norm_num, by norm_num⟩,
    C8_mesh_monotone _ zeroCtx 3 256 (-5) 0.05 Real.pi_pos rfl (by norm_num) (by norm_num)⟩

/-- C9 (kernel table layout): `ERI_FSBT_Init` with `lmax = L` and `ngrid = N`
returns a context in which, for every `l < L`, `m ≤ l` and `i < N`, the table
entry at flat offset `(l*(l+1)+m)*N + i` is the value `M_func(t[i], l, m)`
(the assertion of `M_func` holds at each call); and the offsets of two valid
triples `(l, m, i)` coincide only when the triples do, so no row written for one
pair is overwritten by another. -/
theorem C9_kernel_table_layout (F : Libm ℝ) (raw : ERI_FSBT_t ℝ) (L N : Nat) (rho0 dt : ℝ) :
    ∃ ctx, ERI_FSBT_Init F raw L N rho0 dt = some ctx ∧
      (∀ l m i, l < L → m ≤ l → i < N →
        M_func F (ctx.t i) l m = some (ctx.M ((l * (l + 1) + m) * N + i))) ∧
      (∀ l m i l2 m2 i2, m ≤ l → i < N → m2 ≤ l2 → i2 < N →
        (l * (l + 1) + m) * N + i = (l2 * (l2 + 1) + m2) * N + i2 →
        l = l2 ∧ m = m2 ∧ i = i2) := by
  refine ⟨_, Init_eq F raw L N rho0 dt, ?_, ?_⟩
  · intro l m i hl hm hi
    show _ = some (fill_M_pure F L N _ raw.M _)
    rw [fill_M_pure_at F L N _ raw.M l m i hl hm hi]
    simp only [M_func, if_pos hm]
    rfl
  · intro l m i l2 m2 i2 hm hi hm2 hi2 h
    obtain ⟨h1, h2⟩ := offset_inj hi hi2 h
    obtain ⟨h3, h4⟩ := row_inj hm hm2 h1
    exact ⟨h3, h4, h2⟩

/-! ## Claims about `M_func` -/

/-- The denominator loop of `M_func` (lines 104-112) divides the accumulator, read
as a complex number, by the factors `(1.5 + 2j - p) + i t`, `j < l`. -/
theorem M_func_division_loop (t : ℝ) (p l : Nat) (z : Cplx ℝ) :
    (⟨(forLoop l (fun j (prod : Cplx ℝ) =>
          let cr : ℝ := 1.5 + ((2 * j : Nat) : ℝ) - (p : ℝ)
          let norm := cr * cr + t * t
          let re := (prod.1 * cr + prod.2 * t) / norm
          let im := (prod.2 * cr - prod.1 * t) / norm
          (re, im)) z).1,
      (forLoop l (fun j (prod : Cplx ℝ) =>
          let cr : ℝ := 1.5 + ((2 * j : Nat) : ℝ) - (p : ℝ)
          let norm := cr * cr + t * t
          let re := (prod.1 * cr + prod.2 * t) / norm
          let im := (prod.2 * cr - prod.1 * t) / norm
          (re, im)) z).2⟩ : ℂ)
      = (⟨z.1, z.2⟩ : ℂ) /
          ∏ j in Finset.range l, (⟨1.5 + 2 * (j : ℝ) - (p : ℝ), t⟩ : ℂ) := by
  induction l with
  | zero => simp [forLoop]
  | succ k ih =>
    rw [forLoop_succ, Finset.prod_range_succ, ← div_div, ← ih]
    apply Complex.ext
    · simp only [Complex.div_re, Complex.normSq_mk]
      push_cast
      ring
    · simp only [Complex.div_im, Complex.normSq_mk]
      push_cast
      ring

/-- C10 (degenerate case `m = l`, `p = 0`), with the real cosine and sine: for
every `l` and every real `t`, `M_func(t, l, l)` returns the base value
`B = (1/sqrt(8 PI)) / ∏_{j<l} ((1.5 + 2j) + i t)` multiplied by
`cos(p1-p2) + i sin(p1-p2)` only (`cp = 1`, `sp = 0`, and the numerator loop, whose
trip count is `p = 0`, contributes no factor); in particular
`M_func(t, 0, 0) = (1/sqrt(8 PI)) (cos(p1-p2) + i sin(p1-p2))`. -/
theorem C10_kernel_degenerate (F : Libm ℝ) (hcos : F.cos = Real.cos) (hsin : F.sin = Real.sin)
    (t : ℝ) (l : Nat) :
    (∃ v, M_func F t l l = some v ∧
      (⟨v.1, v.2⟩ : ℂ)
        = (⟨1 / F.sqrt (8 * F.PI), 0⟩ : ℂ)
            / (∏ j in Finset.range l, (⟨1.5 + 2 * (j : ℝ), t⟩ : ℂ))
          * (⟨Real.cos (M_func_p1 F t - M_func_p2 F t),
              Real.sin (M_func_p1 F t - M_func_p2 F t)⟩ : ℂ)) ∧
    M_func F t 0 0
      = some (1 / F.sqrt (8 * F.PI) * Real.cos (M_func_p1 F t - M_func_p2 F t),
              1 / F.sqrt (8 * F.PI) * Real.sin (M_func_p1 F t - M_func_p2 F t)) := by
  have hbody : ∀ k : Nat, M_func_body F t k k
      = ((M_func_prod F t k 0).1 * Real.cos (M_func_p1 F t - M_func_p2 F t)
          - (M_func_prod F t k 0).2 * Real.sin (M_func_p1 F t - M_func_p2 F t),
         (M_func_prod F t k 0).1 * Real.sin (M_func_p1 F t - M_func_p2 F t)
          + (M_func_prod F t k 0).2 * Real.cos (M_func_p1 F t - M_func_p2 F t)) := by
    intro k
    simp [M_func_body, hcos, hsin]
  constructor
  · refine ⟨M_func_body F t l l, by simp [M_func], ?_⟩
    have hloop := M_func_division_loop t 0 l (1.0 / F.sqrt (8.0 * F.PI), 0.0)
    have hprod : (⟨(M_func_prod F t l 0).1, (M_func_prod F t l 0).2⟩ : ℂ)
        = (⟨1 / F.sqrt (8 * F.PI), 0⟩ : ℂ)
            / (∏ j in Finset.range l, (⟨1.5 + 2 * (j : ℝ), t⟩ : ℂ)) := by
      have e : M_func_prod F t l 0
          = forLoop l (fun j (prod : Cplx ℝ) =>
              let cr : ℝ := 1.5 + ((2 * j : Nat) : ℝ) - ((0 : Nat) : ℝ)
              let norm := cr * cr + t * t
              let re := (prod.1 * cr + prod.2 * t) / norm
              let im := (prod.2 * cr - prod.1 * t) / norm
              (re, im)) (1.0 / F.sqrt (8.0 * F.PI), 0.0) := rfl
      rw [e, hloop]
      norm_num
    rw [← hprod, hbody]
    apply Complex.ext <;> simp
  · have h0 : M_func_prod F t 0 0 = (1.0 / F.sqrt (8.0 * F.PI), 0.0) := rfl
    simp only [M_func, le_refl, if_true, hbody, h0]
    norm_num

/-- C10 at `t = 0.25`, `l = 2`, with the real library functions. -/
theorem C10_kernel_degenerate_witness :
    ∃ F : Libm ℝ, F = Libm.mk Real.pi Real.cos Real.sin Real.exp Real.log Real.sqrt
        (fun y x => Complex.arg ⟨x, y⟩) ∧
      (F.cos = Real.cos ∧ F.sin = Real.sin) ∧
      (∃ v, M_func F (0.25 : ℝ) 2 2 = some v ∧
        (⟨v.1, v.2⟩ : ℂ)
          = (⟨1 / F.sqrt (8 * F.PI), 0⟩ : ℂ)
              / (∏ j in Finset.range 2, (⟨1.5 + 2 * (j : ℝ), 0.25⟩ : ℂ))
            * (⟨Real.cos (M_func_p1 F 0.25 - M_func_p2 F 0.25),
                Real.sin (M_func_p1 F 0.25 - M_func_p2 F 0.25)⟩ : ℂ)) ∧
      M_func F (0.25 : ℝ) 0 0
        = some (1 / F.sqrt (8 * F.PI) * Real.cos (M_func_p1 F 0.25 - M_func_p2 F 0.25),
                1 / F.sqrt (8 * F.PI) * Real.sin (M_func_p1 F 0.25 - M_func_p2 F 0.25)) :=
  ⟨_, rfl, ⟨rfl, rfl⟩, C10_kernel_degenerate _ rfl rfl 0.25 2⟩

/-! ## The loops of the transform in closed form -/

theorem loop_input_eq (F : Libm α) (ngrid : Nat) (t0 : α) (rhomesh : Nat → α) (inp : Nat → α)
    (m : Nat) (tmp_in : Nat → Cplx α) (k : Nat) :
    loop_input F ngrid t0 rhomesh inp m tmp_in k
      = if k < ngrid then
          (F.exp ((1.5 + (m : α)) * rhomesh k)
              * (inp (2 * k + 0) * F.cos (t0 * rhomesh k)
                  - inp (2 * k + 1) * F.sin (t0 * rhomesh k)),
           F.exp ((1.5 + (m : α)) * rhomesh k)
              * (inp (2 * k + 0) * F.sin (t0 * rhomesh k)
                  + inp (2 * k + 1) * F.cos (t0 * rhomesh k)))
        else tmp_in k := by
  unfold loop_input
  exact forLoop_store ngrid _ tmp_in k

theorem loop_kernel_eq (ngrid : Nat) (rho0 t0 : α) (tmesh : Nat → α)
    (Mmesh src : Nat → Cplx α) (drho : α) (F : Libm α) (l m : Nat) (tmp_in : Nat → Cplx α)
    (k : Nat) :
    loop_kernel ngrid rho0 t0 tmesh Mmesh src drho F l m tmp_in k
      = if k < ngrid then
          (drho * (((src k).1 * (Mmesh ((l * (l + 1) + m) * ngrid + k)).1
                    - (src k).2 * (Mmesh ((l * (l + 1) + m) * ngrid + k)).2)
                  * F.cos (rho0 * (tmesh k - t0) + rho0 * tmesh k)
                - ((src k).1 * (Mmesh ((l * (l + 1) + m) * ngrid + k)).2
                    + (src k).2 * (Mmesh ((l * (l + 1) + m) * ngrid + k)).1)
                  * F.sin (rho0 * (tmesh k - t0) + rho0 * tmesh k)),
           drho * (((src k).1 * (Mmesh ((l * (l + 1) + m) * ngrid + k)).1
                    - (src k).2 * (Mmesh ((l * (l + 1) + m) * ngrid + k)).2)
                  * F.sin (rho0 * (tmesh k - t0) + rho0 * tmesh k)
                + ((src k).1 * (Mmesh ((l * (l + 1) + m) * ngrid + k)).2
                    + (src k).2 * (Mmesh ((l * (l + 1) + m) * ngrid + k)).1)
                  * F.cos (rho0 * (tmesh k - t0) + rho0 * tmesh k)))
        else tmp_in k := by
  unfold loop_kernel
  exact forLoop_store ngrid _ tmp_in k

theorem loop_output_eq (F : Libm α) (ngrid : Nat) (rho0 t0 : α) (rhomesh : Nat → α)
    (tmp_out : Nat → Cplx α) (dt : α) (m : Nat) (out : Nat → α) (k : Nat) :
    loop_output F ngrid rho0 t0 rhomesh tmp_out dt m out k
      = if k < 2 * ngrid then
          (if k % 2 = 0 then
            F.exp (((m : α) - 1.5) * rhomesh (k / 2)) * dt
              * ((tmp_out (k / 2)).1 * F.cos (t0 * (rhomesh (k / 2) - rho0))
                  - (tmp_out (k / 2)).2 * F.sin (t0 * (rhomesh (k / 2) - rho0)))
          else
            F.exp (((m : α) - 1.5) * rhomesh (k / 2)) * dt
              * ((tmp_out (k / 2)).1 * F.sin (t0 * (rhomesh (k / 2) - rho0))
                  + (tmp_out (k / 2)).2 * F.cos (t0 * (rhomesh (k / 2) - rho0))))
        else out k := by
  unfold loop_output
  exact forLoop_store_pair ngrid _ _ out k

/-- The output loop reads `tmp_out` below `ngrid` only. -/
theorem loop_output_congr (F : Libm α) (ngrid : Nat) (rho0 t0 : α) (rhomesh : Nat → α)
    (a b : Nat → Cplx α) (dt : α) (m : Nat) (out : Nat → α)
    (h : ∀ i, i < ngrid → a i = b i) :
    loop_output F ngrid rho0 t0 rhomesh a dt m out
      = loop_output F ngrid rho0 t0 rhomesh b dt m out := by
  funext k
  rw [loop_output_eq, loop_output_eq]
  by_cases hk : k < 2 * ngrid
  · have h2 : k / 2 < ngrid := by omega
    rw [if_pos hk, if_pos hk, h _ h2]
  · rw [if_neg hk, if_neg hk]

/-- The DFT reads its input below `n` only, and below `n` its output does not
depend on the previous contents of the output buffer. -/
theorem fftw_backward_congr (F : Libm α) (n : Nat) (a b o1 o2 : Nat → Cplx α)
    (h : ∀ j, j < n → a j = b j) (k : Nat) (hk : k < n) :
    fftw_backward F n a o1 k = fftw_backward F n b o2 k := by
  unfold fftw_backward
  rw [if_pos hk, if_pos hk]
  congr 1
  · exact Finset.sum_congr rfl (fun j hj => by rw [h j (Finset.mem_range.mp hj)])
  · exact Finset.sum_congr rfl (fun j hj => by rw [h j (Finset.mem_range.mp hj)])

/-- The kernel loop reads `src` at the index it writes. -/
theorem loop_kernel_congr (ngrid : Nat) (rho0 t0 : α) (tmesh : Nat → α)
    (Mmesh a b : Nat → Cplx α) (drho : α) (F : Libm α) (l m : Nat) (b1 b2 : Nat → Cplx α)
    (h : ∀ j, j < ngrid → a j = b j) (k : Nat) (hk : k < ngrid) :
    loop_kernel ngrid rho0 t0 tmesh Mmesh a drho F l m b1 k
      = loop_kernel ngrid rho0 t0 tmesh Mmesh b drho F l m b2 k := by
  rw [loop_kernel_eq, loop_kernel_eq, if_pos hk, if_pos hk, h k hk]

theorem Transform_Input_g_tmp_in (F : Libm α) (st : State α) (inp : Nat → α) (m : Nat) :
    (ERI_FSBT_Transform_Input F st inp m).g_tmp_in
      = loop_input F st.ctx.ngrid (st.ctx.t 0) st.ctx.rho inp m st.g_tmp_in := rfl

/-- The backward phase does not change the context. -/
theorem Transform_Output_ctx (F : Libm α) (st : State α) (out : Nat → α) (l : Nat) :
    (ERI_FSBT_Transform_Output F st out l).1.ctx = st.ctx := rfl

/-- The buffer written by the backward phase depends on the context only, not on
the scratch buffers. -/
theorem Transform_Output_out (F : Libm α) (st st2 : State α) (out : Nat → α) (l : Nat)
    (h : st.ctx = st2.ctx) :
    (ERI_FSBT_Transform_Output F st out l).2 = (ERI_FSBT_Transform_Output F st2 out l).2 := by
  unfold ERI_FSBT_Transform_Output
  simp only [h]
  apply loop_output_congr
  intro i hi
  apply fftw_backward_congr _ _ _ _ _ _ _ i hi
  intro j hj
  exact loop_kernel_congr _ _ _ _ _ _ _ _ _ _ _ _ _ (fun _ _ => rfl) j hj

/-- The forward phase followed by the backward phase writes what the one-shot
transform writes. -/
theorem Transform_Input_Output (F : Libm α) (st : State α) (inp out : Nat → α) (l m : Nat) :
    (ERI_FSBT_Transform_Output F (ERI_FSBT_Transform_Input F st inp m) out l).2
      = (ERI_FSBT_Transform F st out inp l m).2 := by
  unfold ERI_FSBT_Transform_Output ERI_FSBT_Transform ERI_FSBT_Transform_Input
  apply loop_output_congr
  intro i hi
  apply fftw_backward_congr _ _ _ _ _ _ _ i hi
  intro j hj
  apply loop_kernel_congr _ _ _ _ _ _ _ _ _ _ _ _ _ _ j hj
  intro k hk
  exact fftw_backward_congr _ _ _ _ _ _ (fun _ _ => rfl) k hk

/-! ## Linearity of the stages of the transform -/

theorem loop_input_linear (F : Libm α) (ngrid : Nat) (t0 : α) (rhomesh : Nat → α)
    (f g : Nat → α) (a b : α) (m : Nat) (b0 b1 b2 : Nat → Cplx α) :
    LinComb a b ngrid
      (loop_input F ngrid t0 rhomesh (fun k => a * f k + b * g k) m b0)
      (loop_input F ngrid t0 rhomesh f m b1)
      (loop_input F ngrid t0 rhomesh g m b2) := by
  intro j hj
  rw [loop_input_eq, loop_input_eq, loop_input_eq, if_pos hj, if_pos hj, if_pos hj]
  apply Prod.ext
  · dsimp only
    ring
  · dsimp only
    ring

theorem fftw_backward_linear (F : Libm α) (n : Nat) (a b : α) (x y z o0 o1 o2 : Nat → Cplx α)
    (h : LinComb a b n x y z) :
    LinComb a b n (fftw_backward F n x o0) (fftw_backward F n y o1) (fftw_backward F n z o2) := by
  intro k hk
  unfold fftw_backward
  rw [if_pos hk, if_pos hk, if_pos hk]
  apply Prod.ext
  · dsimp only
    rw [Finset.mul_sum, Finset.mul_sum, ← Finset.sum_add_distrib]
    refine Finset.sum_congr rfl (fun j hj => ?_)
    rw [h j (Finset.mem_range.mp hj)]
    ring
  · dsimp only
    rw [Finset.mul_sum, Finset.mul_sum, ← Finset.sum_add_distrib]
    refine Finset.sum_congr rfl (fun j hj => ?_)
    rw [h j (Finset.mem_range.mp hj)]
    ring

theorem loop_kernel_linear (ngrid : Nat) (rho0 t0 : α) (tmesh : Nat → α)
    (Mmesh : Nat → Cplx α) (drho : α) (F : Libm α) (l m : Nat) (a b : α)
    (x y z b0 b1 b2 : Nat → Cplx α) (h : LinComb a b ngrid x y z) :
    LinComb a b ngrid
      (loop_kernel ngrid rho0 t0 tmesh Mmesh x drho F l m b0)
      (loop_kernel ngrid rho0 t0 tmesh Mmesh y drho F l m b1)
      (loop_kernel ngrid rho0 t0 tmesh Mmesh z drho F l m b2) := by
  intro j hj
  rw [loop_kernel_eq, loop_kernel_eq, loop_kernel_eq, if_pos hj, if_pos hj, if_pos hj, h j hj]
  apply Prod.ext
  · dsimp only
    ring
  · dsimp only
    ring

theorem loop_output_linear (F : Libm α) (ngrid : Nat) (rho0 t0 : α) (rhomesh : Nat → α)
    (dt : α) (m : Nat) (a b : α) (x y z : Nat → Cplx α) (o0 o1 o2 : Nat → α)
    (h : LinComb a b ngrid x y z) (k : Nat) (hk : k < 2 * ngrid) :
    loop_output F ngrid rho0 t0 rhomesh x dt m o0 k
      = a * loop_output F ngrid rho0 t0 rhomesh y dt m o1 k
        + b * loop_output F ngrid rho0 t0 rhomesh z dt m o2 k := by
  have h2 : k / 2 < ngrid := by omega
  rw [loop_output_eq, loop_output_eq, loop_output_eq, if_pos hk, if_pos hk, if_pos hk,
    h _ h2]
  by_cases he : k % 2 = 0
  · rw [if_pos he, if_pos he, if_pos he]
    ring
  · rw [if_neg he, if_neg he, if_neg he]
    ring

/-! ## Claims about the transform -/

theorem run_outputs_ctx (F : Libm α) (calls : List (Nat × (Nat → α))) (st : State α) :
    (run_outputs F st calls).ctx = st.ctx := by
  induction calls generalizing st with
  | nil => rfl
  | cons c cs ih =>
    show (run_outputs F (ERI_FSBT_Transform_Output F st c.2 c.1).1 cs).ctx = st.ctx
    rw [ih]
    rfl

/-- C2 (caching correctness): for every state (context and scratch buffers),
every input buffer, every `m` and every `l`: after `ERI_FSBT_Transform_Input(in, m)`
has run once, and after any sequence of `ERI_FSBT_Transform_Output` calls for
other values of `l` without a new forward phase, `ERI_FSBT_Transform_Output(l)`
writes exactly the output buffer that the one-shot `ERI_FSBT_Transform(in, l, m)`
writes, the DFT being the same function in both. -/
theorem C2_caching_correctness (F : Libm ℝ) (st : State ℝ) (inp out : Nat → ℝ) (m l : Nat)
    (calls : List (Nat × (Nat → ℝ))) :
    (ERI_FSBT_Transform_Output F
        (run_outputs F (ERI_FSBT_Transform_Input F st inp m) calls) out l).2
      = (ERI_FSBT_Transform F st out inp l m).2 := by
  rw [Transform_Output_out F _ (ERI_FSBT_Transform_Input F st inp m) out l
    (run_outputs_ctx F calls _)]
  exact Transform_Input_Output F st inp out l m

/-- C3 (linearity): for every state, every `(l, m)`, every pair of input buffers
`f`, `g` and all real scalars `a`, `b`, the output of
`ERI_FSBT_Transform(a*f + b*g, l, m)` is, at every index `k < 2*ngrid` of the
output buffer, `a` times the output for `f` plus `b` times the output for `g`. -/
theorem C3_linearity (F : Libm ℝ) (st : State ℝ) (out : Nat → ℝ) (f g : Nat → ℝ) (a b : ℝ)
    (l m k : Nat) (hk : k < 2 * st.ctx.ngrid) :
    (ERI_FSBT_Transform F st out (fun i => a * f i + b * g i) l m).2 k
      = a * (ERI_FSBT_Transform F st out f l m).2 k
        + b * (ERI_FSBT_Transform F st out g l m).2 k := by
  unfold ERI_FSBT_Transform
  apply loop_output_linear _ _ _ _ _ _ _ _ _ _ _ _ _ _ _ _ k hk
  apply fftw_backward_linear
  apply loop_kernel_linear
  apply fftw_backward_linear
  apply loop_input_linear

/-- C3 on the context built by `ERI_FSBT_Init` with `lmax = 3`, `ngrid = 4`,
`rho0 = -5`, `dt = 0.05` and the real library functions, at `(l, m) = (1, 0)`,
output index `3`, `a = 2`, `b = 3`, `f[i] = i`, `g[i] = 1`. -/
theorem C3_linearity_witness :
    ∃ F : Libm ℝ, F = Libm.mk Real.pi Real.cos Real.sin Real.exp Real.log Real.sqrt
        (fun y x => Complex.arg ⟨x, y⟩) ∧
    ∃ ctx, ERI_FSBT_Init F zeroCtx 3 4 (-5) 0.05 = some ctx ∧
      3 < 2 * ctx.ngrid ∧
      (ERI_FSBT_Transform F ⟨ctx, fun _ => (0, 0), fun _ => (0, 0)⟩ (fun _ => 0)
          (fun i => 2 * (i : ℝ) + 3 * 1) 1 0).2 3
        = 2 * (ERI_FSBT_Transform F ⟨ctx, fun _ => (0, 0), fun _ => (0, 0)⟩ (fun _ => 0)
            (fun i => (i : ℝ)) 1 0).2 3
          + 3 * (ERI_FSBT_Transform F ⟨ctx, fun _ => (0, 0), fun _ => (0, 0)⟩ (fun _ => 0)
            (fun _ => 1) 1 0).2 3 :=
  ⟨_, rfl, _, Init_eq _ zeroCtx 3 4 (-5) 0.05, by show 3 < 2 * 4; norm_num,
    C3_linearity _ ⟨Init_result _ zeroCtx 3 4 (-5) 0.05, fun _ => (0, 0), fun _ => (0, 0)⟩
      (fun _ => 0) (fun i => (i : ℝ)) (fun _ => 1) 2 3 1 0 3 (by show 3 < 2 * 4; norm_num)⟩

/-! ### The forward phase (C4) -/

/-- C4, as stated, fails. On the context built by `ERI_FSBT_Init` with `ngrid = 1`,
`rho0 = 1`, `dt = 2` (so `t[0] = -1`, `rho[0] = 1`) and the real library functions,
for the input sample `1 + 0i` and `m = 0`, the code stores
`exp(1.5) (cos 1 - i sin 1)`: its rotation angle is `t[0]*rho[0] = -1`. The angle
`-t[0]*rho[0] = 1` of the claim gives `exp(1.5) (cos 1 + i sin 1)`. -/
theorem C4_counterexample :
    ∃ F : Libm ℝ, F = Libm.mk Real.pi Real.cos Real.sin Real.exp Real.log Real.sqrt
        (fun y x => Complex.arg ⟨x, y⟩) ∧
    ∃ ctx, ERI_FSBT_Init F zeroCtx 1 1 1 2 = some ctx ∧
      ctx.t 0 = -1 ∧ ctx.rho 0 = 1 ∧
      (ERI_FSBT_Transform_Input F ⟨ctx, fun _ => (0, 0), fun _ => (0, 0)⟩
          (fun k => if k = 0 then 1 else 0) 0).g_tmp_in 0
        = (Real.exp 1.5 * Real.cos 1, - (Real.exp 1.5 * Real.sin 1)) ∧
      spec_forward_entry F ctx (fun k => if k = 0 then 1 else 0) 0 (-(ctx.t 0) * ctx.rho 0) 0
        = (Real.exp 1.5 * Real.cos 1, Real.exp 1.5 * Real.sin 1) ∧
      (ERI_FSBT_Transform_Input F ⟨ctx, fun _ => (0, 0), fun _ => (0, 0)⟩
          (fun k => if k = 0 then 1 else 0) 0).g_tmp_in 0
        ≠ spec_forward_entry F ctx (fun k => if k = 0 then 1 else 0) 0
            (-(ctx.t 0) * ctx.rho 0) 0 := by
  refine ⟨Libm.mk Real.pi Real.cos Real.sin Real.exp Real.log Real.sqrt
    (fun y x => Complex.arg ⟨x, y⟩), rfl, ?_⟩
  generalize hF : Libm.mk Real.pi Real.cos Real.sin Real.exp Real.log Real.sqrt
    (fun y x => Complex.arg ⟨x, y⟩) = F
  have hcos : F.cos = Real.cos := by rw [← hF]
  have hsin : F.sin = Real.sin := by rw [← hF]
  have hexp : F.exp = Real.exp := by rw [← hF]
  have ht : (Init_result F zeroCtx 1 1 1 2).t 0 = -1 := by
    rw [Init_result_t]; norm_num
  have hrho : (Init_result F zeroCtx 1 1 1 2).rho 0 = 1 := by
    rw [Init_result_rho]; norm_num
  have hn : (Init_result F zeroCtx 1 1 1 2).ngrid = 1 := rfl
  have hcode : (ERI_FSBT_Transform_Input F
      ⟨Init_result F zeroCtx 1 1 1 2, fun _ => (0, 0), fun _ => (0, 0)⟩
      (fun k => if k = 0 then 1 else 0) 0).g_tmp_in 0
      = (Real.exp 1.5 * Real.cos 1, - (Real.exp 1.5 * Real.sin 1)) := by
    rw [Transform_Input_g_tmp_in, loop_input_eq]
    simp only [hn, ht, hrho, hcos, hsin, hexp]
    simp
  have hspec : spec_forward_entry F (Init_result F zeroCtx 1 1 1 2)
      (fun k => if k = 0 then 1 else 0) 0
      (-((Init_result F zeroCtx 1 1 1 2).t 0) * (Init_result F zeroCtx 1 1 1 2).rho 0) 0
      = (Real.exp 1.5 * Real.cos 1, Real.exp 1.5 * Real.sin 1) := by
    rw [ht]
    unfold spec_forward_entry
    rw [hrho]
    simp [cscale, cmul, cis, hcos, hsin, hexp]
  refine ⟨_, Init_eq F zeroCtx 1 1 1 2, ht, hrho, hcode, hspec, ?_⟩
  rw [hcode, hspec]
  intro h
  have h2 : -(Real.exp 1.5 * Real.sin 1) = Real.exp 1.5 * Real.sin 1 := congrArg Prod.snd h
  have hs : 0 < Real.sin 1 :=
    Real.sin_pos_of_pos_of_lt_pi one_pos (by linarith [Real.pi_gt_three])
  have he : 0 < Real.exp 1.5 := Real.exp_pos _
  nlinarith [mul_pos he hs]

/-- C4, amended (the sign of the rotation angle): for every mesh index `i < N`
the pre-DFT buffer entry built by `ERI_FSBT_Transform_Input` is the complex input
sample `in[2i] + i in[2i+1]` scaled by `exp((1.5+m)*rho[i])` and multiplied by
`cos θ + i sin θ` with `θ = t[0]*rho[i]`; `phi` is, below `N`, the backward
length-`N` DFT of that buffer, and `phi_m` is set to `m`. -/
theorem C4_forward_phase (F : Libm ℝ) (st : State ℝ) (inp : Nat → ℝ) (m : Nat) :
    (∀ i, i < st.ctx.ngrid →
      (ERI_FSBT_Transform_Input F st inp m).g_tmp_in i
        = spec_forward_entry F st.ctx inp m (st.ctx.t 0 * st.ctx.rho i) i) ∧
    (∀ k, k < st.ctx.ngrid →
      (ERI_FSBT_Transform_Input F st inp m).ctx.phi k
        = fftw_backward F st.ctx.ngrid
            (fun i => spec_forward_entry F st.ctx inp m (st.ctx.t 0 * st.ctx.rho i) i)
            st.ctx.phi k) ∧
    (ERI_FSBT_Transform_Input F st inp m).ctx.phi_m = m := by
  have hbuf : ∀ i, i < st.ctx.ngrid →
      (ERI_FSBT_Transform_Input F st inp m).g_tmp_in i
        = spec_forward_entry F st.ctx inp m (st.ctx.t 0 * st.ctx.rho i) i := by
    intro i hi
    rw [Transform_Input_g_tmp_in, loop_input_eq, if_pos hi]
    rfl
  refine ⟨hbuf, ?_, rfl⟩
  intro k hk
  exact fftw_backward_congr F _ _ _ _ _ hbuf k hk

/-! ### The backward phase (C5) -/

/-- On a mesh built by `ERI_FSBT_Init` the phase `t[0]*(rho[i]-rho[0])` of the
output loop is `-i·π` (or `0` when `dt = 0`): its sine vanishes. -/
theorem Init_output_phase_sin (F : Libm ℝ) (hpi : F.PI = Real.pi) (raw : ERI_FSBT_t ℝ)
    (lmax N : Nat) (rho0 dt : ℝ) (i : Nat) (hi : i < N) :
    Real.sin ((Init_result F raw lmax N rho0 dt).t 0
      * ((Init_result F raw lmax N rho0 dt).rho i
          - (Init_result F raw lmax N rho0 dt).rho 0)) = 0 := by
  have h0 : 0 < N := by omega
  rw [Init_result_t, Init_result_rho, Init_result_rho, if_pos h0, if_pos hi, if_pos h0, hpi]
  by_cases hdt : dt = 0
  · subst hdt; simp
  · have hN : (N : ℝ) ≠ 0 := by exact_mod_cast h0.ne'
    have e : ((-0.5 : ℝ) * dt * (N : ℝ) + dt * ((0 : Nat) : ℝ))
        * (rho0 + 2.0 * Real.pi / (N : ℝ) / dt * (i : ℝ)
            - (rho0 + 2.0 * Real.pi / (N : ℝ) / dt * ((0 : Nat) : ℝ)))
        = -((i : ℝ) * Real.pi) := by
      field_simp
      norm_num
      ring
    rw [e, Real.sin_neg, Real.sin_nat_mul_pi, neg_zero]

theorem loop_kernel_spec (F : Libm α) (ctx : ERI_FSBT_t α) (l : Nat) (buf : Nat → Cplx α)
    (j : Nat) (hj : j < ctx.ngrid) :
    loop_kernel ctx.ngrid (ctx.rho 0) (ctx.t 0) ctx.t ctx.M ctx.phi ctx.drho F l ctx.phi_m buf j
      = spec_backward_entry F ctx l j := by
  rw [loop_kernel_eq, if_pos hj]
  rfl

/-- The sample `out[2i]` written by the backward phase. -/
theorem Transform_Output_even (F : Libm α) (st : State α) (out : Nat → α) (l i : Nat)
    (hi : i < st.ctx.ngrid) :
    (ERI_FSBT_Transform_Output F st out l).2 (2 * i)
      = F.exp (((st.ctx.phi_m : α) - 1.5) * st.ctx.rho i) * st.ctx.dt
          * ((fftw_backward F st.ctx.ngrid (spec_backward_entry F st.ctx l) st.g_tmp_out i).1
                * F.cos (st.ctx.t 0 * (st.ctx.rho i - st.ctx.rho 0))
              - (fftw_backward F st.ctx.ngrid (spec_backward_entry F st.ctx l) st.g_tmp_out i).2
                * F.sin (st.ctx.t 0 * (st.ctx.rho i - st.ctx.rho 0))) := by
  have hT := fftw_backward_congr F st.ctx.ngrid _ _ st.g_tmp_out st.g_tmp_out
      (fun j hj => loop_kernel_spec F st.ctx l st.g_tmp_in j hj) i hi
  have e0 : (2 * i) % 2 = 0 := by omega
  have e1 : (2 * i) / 2 = i := by omega
  have e4 : 2 * i < 2 * st.ctx.ngrid := by omega
  unfold ERI_FSBT_Transform_Output
  simp only []
  rw [loop_output_eq, if_pos e4, if_pos e0, e1, hT]

/-- The sample `out[2i+1]` written by the backward phase. -/
theorem Transform_Output_odd (F : Libm α) (st : State α) (out : Nat → α) (l i : Nat)
    (hi : i < st.ctx.ngrid) :
    (ERI_FSBT_Transform_Output F st out l).2 (2 * i + 1)
      = F.exp (((st.ctx.phi_m : α) - 1.5) * st.ctx.rho i) * st.ctx.dt
          * ((fftw_backward F st.ctx.ngrid (spec_backward_entry F st.ctx l) st.g_tmp_out i).1
                * F.sin (st.ctx.t 0 * (st.ctx.rho i - st.ctx.rho 0))
              + (fftw_backward F st.ctx.ngrid (spec_backward_entry F st.ctx l) st.g_tmp_out i).2
                * F.cos (st.ctx.t 0 * (st.ctx.rho i - st.ctx.rho 0))) := by
  have hT := fftw_backward_congr F st.ctx.ngrid _ _ st.g_tmp_out st.g_tmp_out
      (fun j hj => loop_kernel_spec F st.ctx l st.g_tmp_in j hj) i hi
  have e2 : ¬ (2 * i + 1) % 2 = 0 := by omega
  have e3 : (2 * i + 1) / 2 = i := by omega
  have e5 : 2 * i + 1 < 2 * st.ctx.ngrid := by omega
  unfold ERI_FSBT_Transform_Output
  simp only []
  rw [loop_output_eq, if_pos e5, if_neg e2, e3, hT]

/-- With the real cosine and sine and with `PI` exactly `π`, on a context whose
meshes were built by `ERI_FSBT_Init`, the sign of the final phase of the backward
phase is immaterial: the samples `out[2i]`, `out[2i+1]` that the code writes with the
phase `t[0]*(rho[i]-rho[0])` are also those of the phase `-t[0]*(rho[i]-rho[0])`,
because the sine of that phase vanishes. -/
theorem backward_phase_on_Init_mesh (F : Libm ℝ) (hcos : F.cos = Real.cos) (hsin : F.sin = Real.sin)
    (hpi : F.PI = Real.pi) (raw : ERI_FSBT_t ℝ) (lmax N : Nat) (rho0 dt : ℝ)
    (phi : Nat → Cplx ℝ) (phi_m : Nat) (g_in g_out : Nat → Cplx ℝ) (out : Nat → ℝ)
    (l i : Nat) (hi : i < N) :
    ∃ ctx0, ERI_FSBT_Init F raw lmax N rho0 dt = some ctx0 ∧
      (ERI_FSBT_Transform_Output F ⟨with_cache ctx0 phi phi_m, g_in, g_out⟩ out l).2 (2 * i)
        = (spec_backward_output F (with_cache ctx0 phi phi_m)
            (fftw_backward F N (spec_backward_entry F (with_cache ctx0 phi phi_m) l) g_out)
            (-(ctx0.t 0) * (ctx0.rho i - ctx0.rho 0)) i).1 ∧
      (ERI_FSBT_Transform_Output F ⟨with_cache ctx0 phi phi_m, g_in, g_out⟩ out l).2 (2 * i + 1)
        = (spec_backward_output F (with_cache ctx0 phi phi_m)
            (fftw_backward F N (spec_backward_entry F (with_cache ctx0 phi phi_m) l) g_out)
            (-(ctx0.t 0) * (ctx0.rho i - ctx0.rho 0)) i).2 := by
  refine ⟨_, Init_eq F raw lmax N rho0 dt, ?_⟩
  have hs := Init_output_phase_sin F hpi raw lmax N rho0 dt i hi
  have hi2 : i < (⟨with_cache (Init_result F raw lmax N rho0 dt) phi phi_m, g_in, g_out⟩ :
      State ℝ).ctx.ngrid := hi
  have hn : (Init_result F raw lmax N rho0 dt).ngrid = N := rfl
  constructor
  · rw [Transform_Output_even F _ out l i hi2]
    simp only [spec_backward_output, cscale, cmul, cis, with_cache, hcos, hsin, neg_mul,
      Real.cos_neg, Real.sin_neg, hs, neg_zero, hn]
  · rw [Transform_Output_odd F _ out l i hi2]
    simp only [spec_backward_output, cscale, cmul, cis, with_cache, hcos, hsin, neg_mul,
      Real.cos_neg, Real.sin_neg, hs, neg_zero, hn]

/-- C11 (frame): `ERI_FSBT_Transform_Output` and the one-shot `ERI_FSBT_Transform`
leave the whole context unchanged (every field, `phi` and `phi_m` included);
`ERI_FSBT_Transform_Input` leaves `ngrid`, `lmax`, `drho`, `dt`, `t`, `rho`, `r` and
`M` unchanged, sets `phi_m = m` and stores the DFT of its buffer in `phi`. -/
theorem C11_frame (F : Libm ℝ) (st : State ℝ) (out inp : Nat → ℝ) (l m : Nat) :
    (ERI_FSBT_Transform_Output F st out l).1.ctx = st.ctx ∧
    (ERI_FSBT_Transform F st out inp l m).1.ctx = st.ctx ∧
    (ERI_FSBT_Transform_Input F st inp m).ctx.ngrid = st.ctx.ngrid ∧
    (ERI_FSBT_Transform_Input F st inp m).ctx.lmax = st.ctx.lmax ∧
    (ERI_FSBT_Transform_Input F st inp m).ctx.drho = st.ctx.drho ∧
    (ERI_FSBT_Transform_Input F st inp m).ctx.dt = st.ctx.dt ∧
    (ERI_FSBT_Transform_Input F st inp m).ctx.t = st.ctx.t ∧
    (ERI_FSBT_Transform_Input F st inp m).ctx.rho = st.ctx.rho ∧
    (ERI_FSBT_Transform_Input F st inp m).ctx.r = st.ctx.r ∧
    (ERI_FSBT_Transform_Input F st inp m).ctx.M = st.ctx.M ∧
    (ERI_FSBT_Transform_Input F st inp m).ctx.phi_m = m ∧
    (ERI_FSBT_Transform_Input F st inp m).ctx.phi
      = fftw_backward F st.ctx.ngrid (ERI_FSBT_Transform_Input F st inp m).g_tmp_in
          st.ctx.phi :=
  ⟨rfl, rfl, rfl, rfl, rfl, rfl, rfl, rfl, rfl, rfl, rfl, rfl⟩

/-- The table cell at an offset that no valid triple `(l, m, i)` owns keeps the
value the storage held before `ERI_FSBT_Init`. -/
theorem fill_M_pure_frame (F : Libm α) (lmax ngrid : Nat) (t : Nat → α) (M : Nat → Cplx α)
    (x : Nat)
    (h : ∀ l m i, l < lmax → m ≤ l → i < ngrid → x ≠ (l * (l + 1) + m) * ngrid + i) :
    fill_M_pure F lmax ngrid t M x = M x := by
  unfold fill_M_pure
  refine forLoop_frame
    (fun l2 y => ∃ m2 i2, m2 ≤ l2 ∧ i2 < ngrid ∧ y = (l2 * (l2 + 1) + m2) * ngrid + i2)
    _ ?_ lmax M x ?_
  · intro l2 s y hy
    refine forLoop_frame
      (fun m2 z => ∃ i2, i2 < ngrid ∧ z = (l2 * (l2 + 1) + m2) * ngrid + i2)
      _ ?_ (l2 + 1) s y ?_
    · intro m2 s2 z hz
      rw [fill_row, if_neg]
      rintro ⟨h1, h2⟩
      exact hz ⟨z - (l2 * (l2 + 1) + m2) * ngrid, by omega, by omega⟩
    · rintro m2 hm2 ⟨i2, hi2, rfl⟩
      exact hy ⟨m2, i2, by omega, hi2, rfl⟩
  · rintro l2 hl2 ⟨m2, i2, hm2, hi2, rfl⟩
    exact h l2 m2 i2 hl2 hm2 hi2 rfl

theorem Init_result_M (F : Libm α) (raw : ERI_FSBT_t α) (lmax ngrid : Nat) (rho0 dt : α) :
    (Init_result F raw lmax ngrid rho0 dt).M
      = fill_M_pure F lmax ngrid (Init_result F raw lmax ngrid rho0 dt).t raw.M := rfl

/-- C15 (accessors): for every context and every index `i`,
`ERI_FSBT_Mesh_r(i) = r[i]`, `ERI_FSBT_Mesh_dr(i) = r[i]*drho`, the reciprocal-mesh
accessors return what the radial ones return (`ERI_FSBT_Mesh_k = ERI_FSBT_Mesh_r`,
`ERI_FSBT_Mesh_dk = ERI_FSBT_Mesh_dr`, `ERI_FSBT_Mesh_Array_k = ERI_FSBT_Mesh_Array_r`),
and on the context returned by `ERI_FSBT_Init(lmax, N, rho0, dt)`,
`ERI_FSBT_ngrid` and `ERI_FSBT_lmax` return `N` and `lmax`. -/
theorem C15_accessors (F : Libm ℝ) (raw : ERI_FSBT_t ℝ) (lmax N : Nat) (rho0 dt : ℝ) :
    (∀ (ptr : ERI_FSBT_t ℝ) (i : Nat),
      ERI_FSBT_Mesh_r ptr i = ptr.r i ∧
      ERI_FSBT_Mesh_dr ptr i = ptr.r i * ptr.drho ∧
      ERI_FSBT_Mesh_k ptr i = ERI_FSBT_Mesh_r ptr i ∧
      ERI_FSBT_Mesh_dk ptr i = ERI_FSBT_Mesh_dr ptr i ∧
      ERI_FSBT_Mesh_Array_k ptr = ERI_FSBT_Mesh_Array_r ptr ∧
      ERI_FSBT_Mesh_Array_r ptr = ptr.r) ∧
    ∃ ctx, ERI_FSBT_Init F raw lmax N rho0 dt = some ctx ∧
      ERI_FSBT_ngrid ctx = N ∧ ERI_FSBT_lmax ctx = lmax ∧
      (∀ i, i < N → ERI_FSBT_Mesh_r ctx i = F.exp (rho0 + ctx.drho * (i : ℝ)) ∧
        ERI_FSBT_Mesh_dr ctx i = F.exp (rho0 + ctx.drho * (i : ℝ)) * ctx.drho) := by
  refine ⟨fun ptr i => ⟨rfl, rfl, rfl, rfl, rfl, rfl⟩, _, Init_eq F raw lmax N rho0 dt,
    rfl, rfl, ?_⟩
  intro i hi
  have hr := Init_result_r F raw lmax N rho0 dt i
  rw [if_pos hi] at hr
  exact ⟨hr, by show (Init_result F raw lmax N rho0 dt).r i * _ = _; rw [hr]; rfl⟩

/-! ## The phases of `M_func` (C16, C17) -/

/-- The real `atan2` at a point of the right half plane is the arctangent of the
quotient. -/
theorem arg_eq_arctan_of_re_pos (x y : ℝ) (hx : 0 < x) :
    Complex.arg ⟨x, y⟩ = Real.arctan (y / x) := by
  have h1 : |Complex.arg ⟨x, y⟩| < Real.pi / 2 :=
    Complex.abs_arg_lt_pi_div_two_iff.mpr (Or.inl hx)
  have h2 := abs_lt.mp h1
  have h3 := Complex.tan_arg ⟨x, y⟩
  rw [← Real.arctan_tan h2.1 h2.2, h3]

/-- With the real exponential and `atan2`, the phase `p2` of `M_func` is the
arctangent of `tanh(PI*t/2)`. -/
theorem M_func_p2_eq (F : Libm ℝ) (hexp : F.exp = Real.exp)
    (hatan : ∀ y x, F.atan2 y x = Complex.arg ⟨x, y⟩) (t : ℝ) :
    M_func_p2 F t = Real.arctan (Real.sinh (F.PI * t / 2) / Real.cosh (F.PI * t / 2)) := by
  have he : Real.exp (F.PI * t) = Real.exp (F.PI * t / 2) * Real.exp (F.PI * t / 2) := by
    rw [← Real.exp_add]; congr 1; ring
  have hinv : Real.exp (F.PI * t / 2) * Real.exp (-(F.PI * t / 2)) = 1 := by
    rw [← Real.exp_add]; simp
  have hpos : 0 < Real.exp (F.PI * t / 2) := Real.exp_pos _
  unfold M_func_p2
  simp only [hexp, hatan]
  rw [arg_eq_arctan_of_re_pos _ _ (by positivity)]
  congr 1
  rw [Real.sinh_eq, Real.cosh_eq, he]
  generalize Real.exp (F.PI * t / 2) = u at hinv hpos
  generalize Real.exp (-(F.PI * t / 2)) = w at hinv
  have hw : 0 < w := by
    rcases lt_trichotomy w 0 with h | h | h
    · nlinarith
    · rw [h] at hinv; norm_num at hinv
    · exact h
  have hc : 0 < (u + w) / 2 := by positivity
  have hd : 0 < u * u + 1.0 := by positivity
  rw [div_eq_div_iff hd.ne' hc.ne']
  norm_num
  linear_combination u * hinv

/-- C16, as stated, fails. With the real library functions, at `t = 1` the phase
`p2 = atan2(e^π - 1, e^π + 1)` computed by `M_func` is `arctan(tanh(π/2))`, which is
not `atan2(sinh π, cosh π) = arctan(tanh π)`. -/
theorem C16_counterexample :
    ∃ F : Libm ℝ, F = Libm.mk Real.pi Real.cos Real.sin Real.exp Real.log Real.sqrt
        (fun y x => Complex.arg ⟨x, y⟩) ∧
      M_func_p2 F 1 = Real.arctan (Real.tanh (Real.pi / 2)) ∧
      F.atan2 (Real.sinh (Real.pi * 1)) (Real.cosh (Real.pi * 1))
        = Real.arctan (Real.tanh Real.pi) ∧
      M_func_p2 F 1 ≠ F.atan2 (Real.sinh (Real.pi * 1)) (Real.cosh (Real.pi * 1)) := by
  refine ⟨Libm.mk Real.pi Real.cos Real.sin Real.exp Real.log Real.sqrt
    (fun y x => Complex.arg ⟨x, y⟩), rfl, ?_⟩
  have h1 : M_func_p2 (Libm.mk Real.pi Real.cos Real.sin Real.exp Real.log Real.sqrt
      (fun y x => Complex.arg ⟨x, y⟩)) 1 = Real.arctan (Real.tanh (Real.pi / 2)) := by
    rw [M_func_p2_eq _ rfl (fun _ _ => rfl), Real.tanh_eq_sinh_div_cosh]
    simp only [mul_one]
  have h2 : Complex.arg ⟨Real.cosh (Real.pi * 1), Real.sinh (Real.pi * 1)⟩
      = Real.arctan (Real.tanh Real.pi) := by
    rw [arg_eq_arctan_of_re_pos _ _ (Real.cosh_pos _), Real.tanh_eq_sinh_div_cosh, mul_one]
  refine ⟨h1, h2, ?_⟩
  rw [h1]
  show _ ≠ Complex.arg ⟨Real.cosh (Real.pi * 1), Real.sinh (Real.pi * 1)⟩
  rw [h2]
  intro h
  have h3 := Real.arctan_injective h
  rw [Real.tanh_eq_sinh_div_cosh, Real.tanh_eq_sinh_div_cosh,
    div_eq_div_iff (Real.cosh_pos _).ne' (Real.cosh_pos _).ne'] at h3
  have h4 : Real.sinh (Real.pi / 2 - Real.pi) = 0 := by
    rw [Real.sinh_sub]; linarith
  have h5 := Real.sinh_eq_zero.mp h4
  linarith [Real.pi_pos]

/-- C16, amended (the argument is halved): with the real exponential, `atan2` and
`π`, for every real `t` the phase `p2` computed inside `M_func` is
`atan2(e^{πt} - 1, e^{πt} + 1)`, and this is the same value as
`atan2(sinh(πt/2), cosh(πt/2)) = arctan(tanh(πt/2))`. -/
theorem C16_phase_p2 (F : Libm ℝ) (hexp : F.exp = Real.exp)
    (hatan : ∀ y x, F.atan2 y x = Complex.arg ⟨x, y⟩) (hpi : F.PI = Real.pi) (t : ℝ) :
    M_func_p2 F t = F.atan2 (Real.exp (Real.pi * t) - 1) (Real.exp (Real.pi * t) + 1) ∧
    M_func_p2 F t = F.atan2 (Real.sinh (Real.pi * t / 2)) (Real.cosh (Real.pi * t / 2)) ∧
    M_func_p2 F t = Real.arctan (Real.tanh (Real.pi * t / 2)) := by
  have h3 : M_func_p2 F t = Real.arctan (Real.tanh (Real.pi * t / 2)) := by
    rw [M_func_p2_eq F hexp hatan, Real.tanh_eq_sinh_div_cosh, hpi]
  refine ⟨?_, ?_, h3⟩
  · unfold M_func_p2
    simp only [hexp, hpi]
    norm_num
  · rw [h3, hatan, arg_eq_arctan_of_re_pos _ _ (Real.cosh_pos _), Real.tanh_eq_sinh_div_cosh]

/-- C16 amended, at `t = 0.25` with the real library functions. -/
theorem C16_phase_p2_witness :
    ∃ F : Libm ℝ, F = Libm.mk Real.pi Real.cos Real.sin Real.exp Real.log Real.sqrt
        (fun y x => Complex.arg ⟨x, y⟩) ∧
      (F.exp = Real.exp ∧ (∀ y x, F.atan2 y x = Complex.arg ⟨x, y⟩) ∧ F.PI = Real.pi) ∧
      M_func_p2 F 0.25
        = F.atan2 (Real.exp (Real.pi * 0.25) - 1) (Real.exp (Real.pi * 0.25) + 1) ∧
      M_func_p2 F 0.25
        = F.atan2 (Real.sinh (Real.pi * 0.25 / 2)) (Real.cosh (Real.pi * 0.25 / 2)) ∧
      M_func_p2 F 0.25 = Real.arctan (Real.tanh (Real.pi * 0.25 / 2)) :=
  ⟨_, rfl, ⟨rfl, fun _ _ => rfl, rfl⟩, C16_phase_p2 _ rfl (fun _ _ => rfl) rfl 0.25⟩

/-- A loop that adds `f j` to an accumulator computes a finite sum. -/
theorem forLoop_add (n : Nat) (f : Nat → α) (p0 : α) :
    forLoop n (fun j p => p + f j) p0 = p0 + ∑ j in Finset.range n, f j := by
  induction n with
  | zero => simp [forLoop]
  | succ k ih => rw [forLoop_succ, ih, Finset.sum_range_succ, add_assoc]

/-- The phase `p1` of `M_func` with its auxiliary angle as the code computes it,
`phi = atan2(2t, 2n+1) = atan2(2t, 21)`. -/
theorem M_func_p1_eq (F : Libm ℝ) (t : ℝ) : M_func_p1 F t = spec_p1 F t (2 * 10 + 1) := by
  have e1 : (0.5 + ((10 : Nat) : ℝ)) * (0.5 + ((10 : Nat) : ℝ)) + t * t
      = (((10 : Nat) : ℝ) + 0.5) ^ 2 + t ^ 2 := by ring
  have e2 : (2.0 : ℝ) * (0.5 + ((10 : Nat) : ℝ)) = 2 * 10 + 1 := by norm_num
  have e3 : (2.0 : ℝ) = 2 := by norm_num
  have e4 : (1.0 : ℝ) = 1 := by norm_num
  have e5 : (3.0 : ℝ) = 3 := by norm_num
  have e6 : (5.0 : ℝ) = 5 := by norm_num
  have e7 : (30.0 : ℝ) = 30 := by norm_num
  have e8 : (12.0 : ℝ) = 12 := by norm_num
  unfold M_func_p1 spec_p1
  simp only []
  rw [forLoop_add, e1, e2, e3, e4, e5, e6, e7, e8]

/-- A lower bound for the gap between the two auxiliary angles at `t = 5`:
`arctan(10/11) - arctan(10/21) = arctan(100/331) > arctan(1/5) > π/16`. -/
theorem arctan_gap : 3 / 16 < Real.arctan (10 / 11) - Real.arctan (10 / 21) := by
  have h1 : Real.arctan (10 / 11) + Real.arctan (-(10 / 21))
      = Real.arctan ((10 / 11 + -(10 / 21)) / (1 - 10 / 11 * -(10 / 21))) :=
    Real.arctan_add (by norm_num)
  have h2 : ((10 : ℝ) / 11 + -(10 / 21)) / (1 - 10 / 11 * -(10 / 21)) = 100 / 331 := by
    norm_num
  rw [h2, Real.arctan_neg] at h1
  have h3 : Real.arctan 5⁻¹ < Real.arctan (100 / 331) :=
    Real.arctan_strictMono (by norm_num)
  have h4 := Real.four_mul_arctan_inv_5_sub_arctan_inv_239
  have h5 : 0 < Real.arctan 239⁻¹ := by
    have := Real.arctan_strictMono (show (0 : ℝ) < 239⁻¹ by norm_num)
    rwa [Real.arctan_zero] at this
  have h6 := Real.pi_gt_three
  linarith

/-- C17, as stated, fails. With the real library functions, at `t = 5` the
auxiliary angle of the code is `atan2(2t, 2n+1) = atan2(10, 21)`, the angle of the
claim is `atan2(2t, n+1) = atan2(10, 11)`, and the phase `p1` computed by `M_func`
is not the one obtained with the angle of the claim. -/
theorem C17_counterexample :
    ∃ F : Libm ℝ, F = Libm.mk Real.pi Real.cos Real.sin Real.exp Real.log Real.sqrt
        (fun y x => Complex.arg ⟨x, y⟩) ∧
      M_func_p1 F 5 = spec_p1 F 5 (2 * 10 + 1) ∧
      M_func_p1 F 5 ≠ spec_p1 F 5 (10 + 1) := by
  refine ⟨Libm.mk Real.pi Real.cos Real.sin Real.exp Real.log Real.sqrt
    (fun y x => Complex.arg ⟨x, y⟩), rfl, M_func_p1_eq _ 5, ?_⟩
  rw [M_func_p1_eq]
  unfold spec_p1
  simp only []
  have ha : Complex.arg ⟨2 * 10 + 1, 2 * 5⟩ = Real.arctan (10 / 21) := by
    rw [arg_eq_arctan_of_re_pos _ _ (by norm_num)]; norm_num
  have hb : Complex.arg ⟨10 + 1, 2 * 5⟩ = Real.arctan (10 / 11) := by
    rw [arg_eq_arctan_of_re_pos _ _ (by norm_num)]; norm_num
  rw [ha, hb]
  have hgap := arctan_gap
  have hrr : (((10 : Nat) : ℝ) + 0.5) ^ 2 + 5 ^ 2 = 135.25 := by norm_num
  rw [hrr]
  have hr : (11 : ℝ) ≤ Real.sqrt 135.25 := by
    apply Real.le_sqrt_of_sq_le
    norm_num
  have s1 := Real.neg_one_le_sin (Real.arctan (10 / 21))
  have s2 := Real.sin_le_one (Real.arctan (10 / 21))
  have s3 := Real.neg_one_le_sin (3 * Real.arctan (10 / 21))
  have s4 := Real.sin_le_one (3 * Real.arctan (10 / 21))
  have s5 := Real.neg_one_le_sin (5 * Real.arctan (10 / 21))
  have s6 := Real.sin_le_one (5 * Real.arctan (10 / 21))
  have u1 := Real.neg_one_le_sin (Real.arctan (10 / 11))
  have u2 := Real.sin_le_one (Real.arctan (10 / 11))
  have u3 := Real.neg_one_le_sin (3 * Real.arctan (10 / 11))
  have u4 := Real.sin_le_one (3 * Real.arctan (10 / 11))
  have u5 := Real.neg_one_le_sin (5 * Real.arctan (10 / 11))
  have u6 := Real.sin_le_one (5 * Real.arctan (10 / 11))
  generalize Real.sin (Real.arctan (10 / 21)) = x1 at s1 s2
  generalize Real.sin (3 * Real.arctan (10 / 21)) = x3 at s3 s4
  generalize Real.sin (5 * Real.arctan (10 / 21)) = x5 at s5 s6
  generalize Real.sin (Real.arctan (10 / 11)) = y1 at u1 u2
  generalize Real.sin (3 * Real.arctan (10 / 11)) = y3 at u3 u4
  generalize Real.sin (5 * Real.arctan (10 / 11)) = y5 at u5 u6
  generalize Real.arctan (10 / 21) = a at hgap
  generalize Real.arctan (10 / 11) = b at hgap
  generalize Real.sqrt 135.25 = r at hr
  intro h
  have hr0 : (0 : ℝ) < r := by linarith
  have hA : |x1 - (x3 - x5 / 3.5 / 135.25) / 30 / 135.25| ≤ 1.001 := by
    rw [abs_le]; constructor <;> norm_num <;> linarith
  have hB : |y1 - (y3 - y5 / 3.5 / 135.25) / 30 / 135.25| ≤ 1.001 := by
    rw [abs_le]; constructor <;> norm_num <;> linarith
  generalize x1 - (x3 - x5 / 3.5 / 135.25) / 30 / 135.25 = A at h hA
  generalize y1 - (y3 - y5 / 3.5 / 135.25) / 30 / 135.25 = B at h hB
  have h2 : A / 12 / r - B / 12 / r = 10 * (a - b) := by
    push_cast at h
    linarith
  have h3 : A - B = 120 * r * (a - b) := by
    field_simp at h2
    linarith
  rw [abs_le] at hA hB
  nlinarith [mul_le_mul_of_nonneg_left hr (show (0 : ℝ) ≤ b - a by linarith)]

/-- C17, amended (the second argument of the auxiliary angle): for every real `t`,
`M_func` uses the auxiliary order `n = 10`, `r = sqrt((n+0.5)^2 + t^2)` and the
auxiliary angle `phi = atan2(2t, 2n+1)` in the leading term of `p1`, and adds exactly
the ten correction terms `atan2(2t, 1+2j)`, `j = 0..9`. -/
theorem C17_phase_p1 (F : Libm ℝ) (t : ℝ) : M_func_p1 F t = spec_p1 F t (2 * 10 + 1) :=
  M_func_p1_eq F t

/-! ## The Gamma-ratio product of `M_func` (C18, C19, C20) -/

/-- The numerator loop of `M_func` (lines 95-102) multiplies the accumulator, read
as a complex number, by the factors `(0.5 + j) - i t`, `j < p`. -/
theorem M_func_multiplication_loop (t : ℝ) (p : Nat) (z : Cplx ℝ) :
    toC (forLoop p (fun j (prod : Cplx ℝ) =>
          let cr : ℝ := 0.5 + (j : ℝ)
          let re := prod.1 * cr - prod.2 * (-t)
          let im := prod.1 * (-t) + prod.2 * cr
          (re, im)) z)
      = toC z * ∏ j in Finset.range p, (⟨0.5 + (j : ℝ), -t⟩ : ℂ) := by
  induction p with
  | zero => simp [forLoop]
  | succ k ih =>
    rw [forLoop_succ, Finset.prod_range_succ, ← mul_assoc, ← ih]
    apply Complex.ext <;> simp [toC]

/-- The accumulator `prod` of `M_func` after its two loops, as a complex number. -/
theorem M_func_prod_eq (F : Libm ℝ) (t : ℝ) (l p : Nat) :
    toC (M_func_prod F t l p)
      = ((1 / F.sqrt (8 * F.PI) : ℝ) : ℂ)
          * (∏ j in Finset.range p, (⟨0.5 + (j : ℝ), -t⟩ : ℂ))
          / (∏ j in Finset.range l, (⟨1.5 + 2 * (j : ℝ) - (p : ℝ), t⟩ : ℂ)) := by
  have hdiv := M_func_division_loop t p l
    (forLoop p (fun j (prod : Cplx ℝ) =>
          let cr : ℝ := 0.5 + (j : ℝ)
          let re := prod.1 * cr - prod.2 * (-t)
          let im := prod.1 * (-t) + prod.2 * cr
          (re, im)) (1.0 / F.sqrt (8.0 * F.PI), 0.0))
  have hmul := M_func_multiplication_loop t p (1.0 / F.sqrt (8.0 * F.PI), 0.0)
  have h0 : toC ((1.0 / F.sqrt (8.0 * F.PI), 0.0) : Cplx ℝ)
      = ((1 / F.sqrt (8 * F.PI) : ℝ) : ℂ) := by
    apply Complex.ext <;> simp [toC] <;> norm_num
  rw [h0] at hmul
  rw [← hmul]
  exact hdiv

/-- The value returned by `M_func` is the accumulator times the rotation factor. -/
theorem M_func_body_eq (F : Libm ℝ) (t : ℝ) (l m : Nat) :
    toC (M_func_body F t l m)
      = toC (M_func_prod F t l (l - m))
        * (⟨F.cos (F.PI * ((l - m : Nat) : ℝ) / 2) * F.cos (M_func_p1 F t - M_func_p2 F t)
              + F.sin (F.PI * ((l - m : Nat) : ℝ) / 2) * F.cos (M_func_p1 F t + M_func_p2 F t),
            F.cos (F.PI * ((l - m : Nat) : ℝ) / 2) * F.sin (M_func_p1 F t - M_func_p2 F t)
              + F.sin (F.PI * ((l - m : Nat) : ℝ) / 2)
                * F.sin (M_func_p1 F t + M_func_p2 F t)⟩ : ℂ) := by
  have e : (2.0 : ℝ) = 2 := by norm_num
  apply Complex.ext <;> simp [toC, M_func_body, e]

/-- C18 (Gamma-ratio recurrence): for every real `t` and `m ≤ l`, with `p = l - m`,
`M_func(t, l, m)` returns a value; the complex accumulator `prod` at the end of its
two loops is `(1/sqrt(8 PI)) ∏_{j<p} ((0.5+j) - i t) / ∏_{j<l} ((1.5+2j-p) + i t)`, and
the returned value is `prod` times the complex number
`(cp cos(p1-p2) + sp cos(p1+p2)) + i (cp sin(p1-p2) + sp sin(p1+p2))`,
`cp = cos(PI p/2)`, `sp = sin(PI p/2)`. -/
theorem C18_gamma_recurrence (F : Libm ℝ) (t : ℝ) (l m : Nat) (hm : m ≤ l) :
    ∃ v, M_func F t l m = some v ∧
      toC (M_func_prod F t l (l - m))
        = ((1 / F.sqrt (8 * F.PI) : ℝ) : ℂ)
            * (∏ j in Finset.range (l - m), (⟨0.5 + (j : ℝ), -t⟩ : ℂ))
            / (∏ j in Finset.range l, (⟨1.5 + 2 * (j : ℝ) - ((l - m : Nat) : ℝ), t⟩ : ℂ)) ∧
      toC v
        = toC (M_func_prod F t l (l - m))
          * (⟨F.cos (F.PI * ((l - m : Nat) : ℝ) / 2) * F.cos (M_func_p1 F t - M_func_p2 F t)
                + F.sin (F.PI * ((l - m : Nat) : ℝ) / 2)
                  * F.cos (M_func_p1 F t + M_func_p2 F t),
              F.cos (F.PI * ((l - m : Nat) : ℝ) / 2) * F.sin (M_func_p1 F t - M_func_p2 F t)
                + F.sin (F.PI * ((l - m : Nat) : ℝ) / 2)
                  * F.sin (M_func_p1 F t + M_func_p2 F t)⟩ : ℂ) :=
  ⟨M_func_body F t l m, by simp [M_func, hm], M_func_prod_eq F t l (l - m),
    M_func_body_eq F t l m⟩

/-- C18 at `t = 0.25`, `l = 2`, `m = 1` with the real library functions. -/
theorem C18_gamma_recurrence_witness :
    ∃ F : Libm ℝ, F = Libm.mk Real.pi Real.cos Real.sin Real.exp Real.log Real.sqrt
        (fun y x => Complex.arg ⟨x, y⟩) ∧
    1 ≤ 2 ∧
    ∃ v, M_func F 0.25 2 1 = some v ∧
      toC (M_func_prod F 0.25 2 (2 - 1))
        = ((1 / F.sqrt (8 * F.PI) : ℝ) : ℂ)
            * (∏ j in Finset.range (2 - 1), (⟨0.5 + (j : ℝ), -0.25⟩ : ℂ))
            / (∏ j in Finset.range 2, (⟨1.5 + 2 * (j : ℝ) - ((2 - 1 : Nat) : ℝ), 0.25⟩ : ℂ)) ∧
      toC v
        = toC (M_func_prod F 0.25 2 (2 - 1))
          * (⟨F.cos (F.PI * ((2 - 1 : Nat) : ℝ) / 2)
                  * F.cos (M_func_p1 F 0.25 - M_func_p2 F 0.25)
                + F.sin (F.PI * ((2 - 1 : Nat) : ℝ) / 2)
                  * F.cos (M_func_p1 F 0.25 + M_func_p2 F 0.25),
              F.cos (F.PI * ((2 - 1 : Nat) : ℝ) / 2)
                  * F.sin (M_func_p1 F 0.25 - M_func_p2 F 0.25)
                + F.sin (F.PI * ((2 - 1 : Nat) : ℝ) / 2)
                  * F.sin (M_func_p1 F 0.25 + M_func_p2 F 0.25)⟩ : ℂ) :=
  ⟨_, rfl, by norm_num, C18_gamma_recurrence _ 0.25 2 1 (by norm_num)⟩

/-- The rotation factor of `M_func` has modulus one: `cos(π p/2) sin(π p/2) = 0` for
every natural `p`. -/
theorem rotation_factor_normSq (p : Nat) (x y : ℝ) :
    (Real.cos (Real.pi * (p : ℝ) / 2) * Real.cos (x - y)
        + Real.sin (Real.pi * (p : ℝ) / 2) * Real.cos (x + y)) ^ 2
      + (Real.cos (Real.pi * (p : ℝ) / 2) * Real.sin (x - y)
        + Real.sin (Real.pi * (p : ℝ) / 2) * Real.sin (x + y)) ^ 2 = 1 := by
  have h4 : Real.sin (Real.pi * (p : ℝ) / 2) * Real.cos (Real.pi * (p : ℝ) / 2) = 0 := by
    have h := Real.sin_two_mul (Real.pi * (p : ℝ) / 2)
    have e : 2 * (Real.pi * (p : ℝ) / 2) = (p : ℝ) * Real.pi := by ring
    rw [e, Real.sin_nat_mul_pi] at h
    linarith
  have h1 := Real.sin_sq_add_cos_sq (x - y)
  have h2 := Real.sin_sq_add_cos_sq (x + y)
  have h3 := Real.sin_sq_add_cos_sq (Real.pi * (p : ℝ) / 2)
  linear_combination
    (Real.cos (Real.pi * (p : ℝ) / 2)) ^ 2 * h1 + (Real.sin (Real.pi * (p : ℝ) / 2)) ^ 2 * h2
      + h3
      + 2 * (Real.cos (x - y) * Real.cos (x + y) + Real.sin (x - y) * Real.sin (x + y)) * h4

/-- C19 (kernel magnitude), with the real `cos`, `sin`, `sqrt` and `π`: the rotation
factor applied in the last step of `M_func` has modulus exactly `1` for every
`p ≥ 0` and all real `p1`, `p2`; hence for every real `t` and `m ≤ l`, with `p = l - m`,
`|M(t,l,m)|^2 = (1/(8π)) ∏_{j<p} ((0.5+j)^2 + t^2) / ∏_{j<l} ((1.5+2j-p)^2 + t^2)`,
whatever the phases `p1`, `p2` are (no property of `atan2`, `log`, `exp` is used). -/
theorem C19_kernel_magnitude (F : Libm ℝ) (hcos : F.cos = Real.cos) (hsin : F.sin = Real.sin)
    (hsqrt : F.sqrt = Real.sqrt) (hpi : F.PI = Real.pi) (t : ℝ) (l m : Nat) (hm : m ≤ l) :
    (∀ (p : Nat) (p1 p2 : ℝ),
      (F.cos (F.PI * (p : ℝ) / 2) * F.cos (p1 - p2)
          + F.sin (F.PI * (p : ℝ) / 2) * F.cos (p1 + p2)) ^ 2
        + (F.cos (F.PI * (p : ℝ) / 2) * F.sin (p1 - p2)
          + F.sin (F.PI * (p : ℝ) / 2) * F.sin (p1 + p2)) ^ 2 = 1) ∧
    ∃ v, M_func F t l m = some v ∧
      v.1 ^ 2 + v.2 ^ 2
        = 1 / (8 * Real.pi)
            * (∏ j in Finset.range (l - m), ((0.5 + (j : ℝ)) ^ 2 + t ^ 2))
            / (∏ j in Finset.range l, ((1.5 + 2 * (j : ℝ) - ((l - m : Nat) : ℝ)) ^ 2 + t ^ 2)) := by
  have hrot : ∀ (p : Nat) (p1 p2 : ℝ),
      (F.cos (F.PI * (p : ℝ) / 2) * F.cos (p1 - p2)
          + F.sin (F.PI * (p : ℝ) / 2) * F.cos (p1 + p2)) ^ 2
        + (F.cos (F.PI * (p : ℝ) / 2) * F.sin (p1 - p2)
          + F.sin (F.PI * (p : ℝ) / 2) * F.sin (p1 + p2)) ^ 2 = 1 := by
    intro p p1 p2
    rw [hcos, hsin, hpi]
    exact rotation_factor_normSq p p1 p2
  refine ⟨hrot, M_func_body F t l m, by simp [M_func, hm], ?_⟩
  have hv : (M_func_body F t l m).1 ^ 2 + (M_func_body F t l m).2 ^ 2
      = Complex.normSq (toC (M_func_body F t l m)) := by
    simp [toC, Complex.normSq_mk, sq]
  have h8 : (0 : ℝ) ≤ 8 * Real.pi := by positivity
  have hc : (1 / Real.sqrt (8 * Real.pi)) * (1 / Real.sqrt (8 * Real.pi)) = 1 / (8 * Real.pi) := by
    rw [div_mul_div_comm, one_mul, Real.mul_self_sqrt h8]
  rw [hv, M_func_body_eq, M_func_prod_eq, map_mul, map_div₀, map_mul, map_prod, map_prod,
    Complex.normSq_ofReal, Complex.normSq_mk, hsqrt, hpi, hc]
  have hr := hrot (l - m) (M_func_p1 F t) (M_func_p2 F t)
  rw [hpi] at hr
  rw [show ∀ a b : ℝ, a * a + b * b = a ^ 2 + b ^ 2 from fun a b => by ring, hr, mul_one]
  congr 1
  · congr 1
    exact Finset.prod_congr rfl (fun j _ => by rw [Complex.normSq_mk]; ring)
  · exact Finset.prod_congr rfl (fun j _ => by rw [Complex.normSq_mk]; ring)

/-- C19 at `t = 0.25`, `l = 2`, `m = 1` with the real library functions. -/
theorem C19_kernel_magnitude_witness :
    ∃ F : Libm ℝ, F = Libm.mk Real.pi Real.cos Real.sin Real.exp Real.log Real.sqrt
        (fun y x => Complex.arg ⟨x, y⟩) ∧
    (F.cos = Real.cos ∧ F.sin = Real.sin ∧ F.sqrt = Real.sqrt ∧ F.PI = Real.pi ∧ 1 ≤ 2) ∧
    (∀ (p : Nat) (p1 p2 : ℝ),
      (F.cos (F.PI * (p : ℝ) / 2) * F.cos (p1 - p2)
          + F.sin (F.PI * (p : ℝ) / 2) * F.cos (p1 + p2)) ^ 2
        + (F.cos (F.PI * (p : ℝ) / 2) * F.sin (p1 - p2)
          + F.sin (F.PI * (p : ℝ) / 2) * F.sin (p1 + p2)) ^ 2 = 1) ∧
    ∃ v, M_func F 0.25 2 1 = some v ∧
      v.1 ^ 2 + v.2 ^ 2
        = 1 / (8 * Real.pi)
            * (∏ j in Finset.range (2 - 1), ((0.5 + (j : ℝ)) ^ 2 + (0.25 : ℝ) ^ 2))
            / (∏ j in Finset.range 2,
                ((1.5 + 2 * (j : ℝ) - ((2 - 1 : Nat) : ℝ)) ^ 2 + (0.25 : ℝ) ^ 2)) :=
  ⟨_, rfl, ⟨rfl, rfl, rfl, rfl, by norm_num⟩,
    C19_kernel_magnitude _ rfl rfl rfl rfl 0.25 2 1 (by norm_num)⟩

/-- The real `atan2` is odd in its first argument on the right half plane. -/
theorem arg_neg_im_of_re_pos (x y : ℝ) (hx : 0 < x) :
    Complex.arg ⟨x, -y⟩ = - Complex.arg ⟨x, y⟩ := by
  rw [arg_eq_arctan_of_re_pos _ _ hx, arg_eq_arctan_of_re_pos _ _ hx, neg_div,
    Real.arctan_neg]

/-- With the real `sin` and `atan2`, the phase `p1` of `M_func` is an odd function
of `t`. -/
theorem M_func_p1_neg (F : Libm ℝ) (hsin : F.sin = Real.sin)
    (hatan : ∀ y x, F.atan2 y x = Complex.arg ⟨x, y⟩) (t : ℝ) :
    M_func_p1 F (-t) = - M_func_p1 F t := by
  have hodd : ∀ x : ℝ, 0 < x → F.atan2 (2 * -t) x = - F.atan2 (2 * t) x := by
    intro x hx
    rw [hatan, hatan, mul_neg]
    exact arg_neg_im_of_re_pos x (2 * t) hx
  have hsum : ∑ j in Finset.range 10, F.atan2 (2 * -t) (1 + 2 * (j : ℝ))
      = - ∑ j in Finset.range 10, F.atan2 (2 * t) (1 + 2 * (j : ℝ)) := by
    rw [← Finset.sum_neg_distrib]
    exact Finset.sum_congr rfl (fun j _ => hodd _ (by positivity))
  rw [M_func_p1_eq, M_func_p1_eq]
  unfold spec_p1
  simp only []
  rw [hsum, hodd (2 * 10 + 1) (by norm_num), hsin, neg_sq, mul_neg, mul_neg, Real.sin_neg,
    Real.sin_neg, Real.sin_neg]
  ring

/-- With the real `exp` and `atan2`, the phase `p2` of `M_func` is an odd function
of `t`. -/
theorem M_func_p2_neg (F : Libm ℝ) (hexp : F.exp = Real.exp)
    (hatan : ∀ y x, F.atan2 y x = Complex.arg ⟨x, y⟩) (t : ℝ) :
    M_func_p2 F (-t) = - M_func_p2 F t := by
  rw [M_func_p2_eq F hexp hatan, M_func_p2_eq F hexp hatan]
  have e : F.PI * -t / 2 = -(F.PI * t / 2) := by ring
  rw [e, Real.sinh_neg, Real.cosh_neg, neg_div, Real.arctan_neg]

/-- The accumulator of `M_func` at `-t` is the complex conjugate of the one at `t`. -/
theorem M_func_prod_neg (F : Libm ℝ) (t : ℝ) (l p : Nat) :
    toC (M_func_prod F (-t) l p) = (starRingEnd ℂ) (toC (M_func_prod F t l p)) := by
  have hconj : ∀ a b : ℝ, (starRingEnd ℂ) (⟨a, b⟩ : ℂ) = ⟨a, -b⟩ := by
    intro a b
    apply Complex.ext <;> simp
  rw [M_func_prod_eq, M_func_prod_eq, map_div₀, map_mul, map_prod, map_prod,
    Complex.conj_ofReal]
  simp only [hconj]

/-- C20 (Hermitian kernel), with the real `cos`, `sin`, `exp` and `atan2`: for every
real `t` and `m ≤ l`, `M_func(-t, l, m)` is the complex conjugate of
`M_func(t, l, m)`: the phases `p1`, `p2` are odd in `t` and the Gamma-ratio product
at `-t` is the conjugate of the product at `t`. -/
theorem C20_kernel_hermitian (F : Libm ℝ) (hcos : F.cos = Real.cos) (hsin : F.sin = Real.sin)
    (hexp : F.exp = Real.exp) (hatan : ∀ y x, F.atan2 y x = Complex.arg ⟨x, y⟩)
    (t : ℝ) (l m : Nat) (hm : m ≤ l) :
    M_func_p1 F (-t) = - M_func_p1 F t ∧
    M_func_p2 F (-t) = - M_func_p2 F t ∧
    toC (M_func_prod F (-t) l (l - m)) = (starRingEnd ℂ) (toC (M_func_prod F t l (l - m))) ∧
    ∃ v, M_func F t l m = some v ∧ M_func F (-t) l m = some (v.1, -v.2) := by
  have h1 := M_func_p1_neg F hsin hatan t
  have h2 := M_func_p2_neg F hexp hatan t
  have h3 := M_func_prod_neg F t l (l - m)
  refine ⟨h1, h2, h3, M_func_body F t l m, by simp [M_func, hm], ?_⟩
  have hC : toC (M_func_body F (-t) l m) = (starRingEnd ℂ) (toC (M_func_body F t l m)) := by
    rw [M_func_body_eq, M_func_body_eq, map_mul, h3, h1, h2, hcos, hsin]
    congr 1
    have e1 : -M_func_p1 F t - -M_func_p2 F t = -(M_func_p1 F t - M_func_p2 F t) := by ring
    have e2 : -M_func_p1 F t + -M_func_p2 F t = -(M_func_p1 F t + M_func_p2 F t) := by ring
    rw [e1, e2, Real.cos_neg, Real.cos_neg, Real.sin_neg, Real.sin_neg]
    apply Complex.ext <;> simp
    ring
  have hre := congrArg Complex.re hC
  have him := congrArg Complex.im hC
  simp only [toC, Complex.conj_re, Complex.conj_im] at hre him
  simp only [M_func, hm, if_true]
  rw [← hre, ← him]

/-- C20 at `t = 0.25`, `l = 2`, `m = 1` with the real library functions. -/
theorem C20_kernel_hermitian_witness :
    ∃ F : Libm ℝ, F = Libm.mk Real.pi Real.cos Real.sin Real.exp Real.log Real.sqrt
        (fun y x => Complex.arg ⟨x, y⟩) ∧
    (F.cos = Real.cos ∧ F.sin = Real.sin ∧ F.exp = Real.exp ∧
      (∀ y x, F.atan2 y x = Complex.arg ⟨x, y⟩) ∧ 1 ≤ 2) ∧
    M_func_p1 F (-0.25) = - M_func_p1 F 0.25 ∧
    M_func_p2 F (-0.25) = - M_func_p2 F 0.25 ∧
    toC (M_func_prod F (-0.25) 2 (2 - 1))
      = (starRingEnd ℂ) (toC (M_func_prod F 0.25 2 (2 - 1))) ∧
    ∃ v, M_func F 0.25 2 1 = some v ∧ M_func F (-0.25) 2 1 = some (v.1, -v.2) :=
  ⟨_, rfl, ⟨rfl, rfl, rfl, fun _ _ => rfl, by norm_num⟩,
    C20_kernel_hermitian _ rfl rfl rfl (fun _ _ => rfl) 0.25 2 1 (by norm_num)⟩

/-! ## Safety of `M_func` and of the table index (C21, C22) -/

/-- The denominator loop of `M_func` divides by `M_func_norm`. -/
theorem M_func_prod_norm (F : Libm α) (t : α) (l p : Nat) :
    M_func_prod F t l p
      = forLoop l (fun j prod =>
          ((prod.1 * (1.5 + ((2 * j : Nat) : α) - (p : α)) + prod.2 * t) / M_func_norm t p j,
           (prod.2 * (1.5 + ((2 * j : Nat) : α) - (p : α)) - prod.1 * t) / M_func_norm t p j))
          (M_func_prod F t 0 p) := rfl

/-- The phase `p1` of `M_func` takes the logarithm of `M_func_r` and divides by it. -/
theorem M_func_p1_r (F : Libm α) (t : α) :
    M_func_p1 F t
      = forLoop 10 (fun j p1 => p1 + F.atan2 (2.0 * t) (1.0 + 2.0 * (j : α)))
          (t * (1.0 - F.log (M_func_r F t))
            - F.atan2 (2.0 * t) (2.0 * (0.5 + ((10 : Nat) : α))) * ((10 : Nat) : α)
            + (F.sin (F.atan2 (2.0 * t) (2.0 * (0.5 + ((10 : Nat) : α))))
                - (F.sin (3.0 * F.atan2 (2.0 * t) (2.0 * (0.5 + ((10 : Nat) : α))))
                    - F.sin (5.0 * F.atan2 (2.0 * t) (2.0 * (0.5 + ((10 : Nat) : α))))
                      / 3.5 / ((0.5 + ((10 : Nat) : α)) * (0.5 + ((10 : Nat) : α)) + t * t))
                  / 30.0 / ((0.5 + ((10 : Nat) : α)) * (0.5 + ((10 : Nat) : α)) + t * t))
              / 12.0 / M_func_r F t) := rfl

/-- The real part `1.5 + 2j - p` of a divisor is a half-integer: it is not zero. -/
theorem M_func_cr_ne_zero (p j : Nat) : (1.5 : ℝ) + ((2 * j : Nat) : ℝ) - (p : ℝ) ≠ 0 := by
  intro h0
  have h1 : ((3 + 4 * j : Nat) : ℝ) = ((2 * p : Nat) : ℝ) := by
    push_cast
    push_cast at h0
    linarith
  have h2 : 3 + 4 * j = 2 * p := Nat.cast_injective h1
  omega

/-- C21 (no division by zero in `M_func`), with the real `sqrt`: for every real `t`,
every `l`, every `m ≤ l` and every `j` (in particular every `j < l`, the indices the
loop visits), the divisor `norm = (1.5 + 2j - (l-m))^2 + t^2` of the denominator loop
is strictly positive (its real part `1.5 + 2j - (l-m)` is a half-integer, hence not
zero), and the argument `r` of `log` satisfies `r ≥ 10.5 > 0`.
The first two conjuncts say that `norm` and `r` are the quantities the code
divides by and takes the logarithm of. -/
theorem C21_no_division_by_zero (F : Libm ℝ) (hsqrt : F.sqrt = Real.sqrt) (t : ℝ)
    (l m j : Nat) (hm : m ≤ l) :
    M_func_prod F t l (l - m)
      = forLoop l (fun j prod =>
          ((prod.1 * (1.5 + ((2 * j : Nat) : ℝ) - ((l - m : Nat) : ℝ)) + prod.2 * t)
              / M_func_norm t (l - m) j,
           (prod.2 * (1.5 + ((2 * j : Nat) : ℝ) - ((l - m : Nat) : ℝ)) - prod.1 * t)
              / M_func_norm t (l - m) j))
          (M_func_prod F t 0 (l - m)) ∧
    M_func_r F t = F.sqrt ((0.5 + 10) * (0.5 + 10) + t * t) ∧
    M_func_norm t (l - m) j = (1.5 + 2 * (j : ℝ) - ((l : ℝ) - (m : ℝ))) ^ 2 + t ^ 2 ∧
    (1.5 : ℝ) + 2 * (j : ℝ) - ((l : ℝ) - (m : ℝ)) ≠ 0 ∧
    0 < M_func_norm t (l - m) j ∧
    10.5 ≤ M_func_r F t ∧
    0 < M_func_r F t := by
  have hcr := M_func_cr_ne_zero (l - m) j
  have hnorm : M_func_norm t (l - m) j
      = (1.5 + 2 * (j : ℝ) - ((l : ℝ) - (m : ℝ))) ^ 2 + t ^ 2 := by
    unfold M_func_norm
    simp only []
    rw [Nat.cast_sub hm]
    push_cast
    ring
  have hcr2 : (1.5 : ℝ) + 2 * (j : ℝ) - ((l : ℝ) - (m : ℝ)) ≠ 0 := by
    rw [Nat.cast_sub hm] at hcr
    push_cast at hcr
    exact hcr
  have hr : (10.5 : ℝ) ≤ M_func_r F t := by
    unfold M_func_r
    simp only []
    rw [hsqrt]
    apply Real.le_sqrt_of_sq_le
    push_cast
    nlinarith [mul_self_nonneg t]
  refine ⟨M_func_prod_norm F t l (l - m), ?_, hnorm, hcr2, ?_, hr, by linarith⟩
  · unfold M_func_r
    simp only []
    norm_num
  · rw [hnorm]
    have := pow_pos (abs_pos.mpr hcr2) 2
    rw [sq_abs] at this
    nlinarith [sq_nonneg t]

/-- C21 at `t = 0`, `l = 2`, `m = 1`, `j = 1` with the real library functions. -/
theorem C21_no_division_by_zero_witness :
    ∃ F : Libm ℝ, F = Libm.mk Real.pi Real.cos Real.sin Real.exp Real.log Real.sqrt
        (fun y x => Complex.arg ⟨x, y⟩) ∧
    (F.sqrt = Real.sqrt ∧ 1 ≤ 2) ∧
    M_func_prod F 0 2 (2 - 1)
      = forLoop 2 (fun j prod =>
          ((prod.1 * (1.5 + ((2 * j : Nat) : ℝ) - ((2 - 1 : Nat) : ℝ)) + prod.2 * 0)
              / M_func_norm 0 (2 - 1) j,
           (prod.2 * (1.5 + ((2 * j : Nat) : ℝ) - ((2 - 1 : Nat) : ℝ)) - prod.1 * 0)
              / M_func_norm 0 (2 - 1) j))
          (M_func_prod F 0 0 (2 - 1)) ∧
    M_func_r F 0 = F.sqrt ((0.5 + 10) * (0.5 + 10) + 0 * 0) ∧
    M_func_norm (0 : ℝ) (2 - 1) 1
      = (1.5 + 2 * ((1 : Nat) : ℝ) - (((2 : Nat) : ℝ) - ((1 : Nat) : ℝ))) ^ 2 + (0 : ℝ) ^ 2 ∧
    (1.5 : ℝ) + 2 * ((1 : Nat) : ℝ) - (((2 : Nat) : ℝ) - ((1 : Nat) : ℝ)) ≠ 0 ∧
    0 < M_func_norm (0 : ℝ) (2 - 1) 1 ∧
    10.5 ≤ M_func_r F 0 ∧
    0 < M_func_r F 0 :=
  ⟨_, rfl, ⟨rfl, by norm_num⟩, C21_no_division_by_zero _ rfl 0 2 1 1 (by norm_num)⟩

/-- The last row index of the table: for `m ≤ l < L`, `l*(l+1)+m ≤ L*L - 1`. -/
theorem row_le {L l m : Nat} (hl : l < L) (hm : m ≤ l) : l * (l + 1) + m + 1 ≤ L * L := by
  have h1 : (l + 1) * (l + 1) ≤ L * L := Nat.mul_le_mul hl hl
  have h2 : (l + 1) * (l + 1) = l * (l + 1) + l + 1 := by ring
  omega

/-- The offset of a valid triple lies inside the allocated table. -/
theorem M_offset_lt {L N l m i : Nat} (hl : l < L) (hm : m ≤ l) (hi : i < N) :
    M_offset l m N i < Init_M_cells L N := by
  unfold M_offset Init_M_cells
  have h1 := @row_le L l m hl hm
  have h2 : (l * (l + 1) + m + 1) * N ≤ L * L * N := Nat.mul_le_mul_right N h1
  have h3 : L * L * N ≤ L * (L + 1) * N :=
    Nat.mul_le_mul_right N (Nat.mul_le_mul_left L (Nat.le_succ L))
  have h4 : (l * (l + 1) + m + 1) * N = (l * (l + 1) + m) * N + N := by ring
  omega

/-- C22 (the flattened kernel index is in bounds and injective): for all pairs with
`m ≤ l < L` (so `L ≥ 1`), `l*(l+1)+m ≤ L*L - 1 < L*(L+1)`; every offset
`(l*(l+1)+m)*N + i`, `i < N`, lies inside the `L*(L+1)*N` cells that `ERI_FSBT_Init`
allocates, and `ERI_FSBT_Init` leaves every cell from `L*(L+1)*N` on as it was; two
valid pairs with the same flattened index are the same pair. -/
theorem C22_index_in_bounds (F : Libm ℝ) (raw : ERI_FSBT_t ℝ) (L N : Nat) (rho0 dt : ℝ)
    (l m i l2 m2 : Nat) (hl : l < L) (hm : m ≤ l) (hi : i < N) (hl2 : l2 < L) (hm2 : m2 ≤ l2) :
    l * (l + 1) + m ≤ L * L - 1 ∧
    L * L - 1 < L * (L + 1) ∧
    M_offset l m N i < Init_M_cells L N ∧
    (l * (l + 1) + m = l2 * (l2 + 1) + m2 → l = l2 ∧ m = m2) ∧
    ((l, m) ≠ (l2, m2) → ∀ i2, i2 < N → M_offset l m N i ≠ M_offset l2 m2 N i2) ∧
    ∃ ctx, ERI_FSBT_Init F raw L N rho0 dt = some ctx ∧
      M_func F (ctx.t i) l m = some (ctx.M (M_offset l m N i)) ∧
      ∀ x, Init_M_cells L N ≤ x → ctx.M x = raw.M x := by
  have h1 := @row_le L l m hl hm
  have hL : 0 < L := by omega
  have hLL : 0 < L * L := Nat.mul_pos hL hL
  have h2 : L * L ≤ L * (L + 1) := Nat.mul_le_mul_left L (Nat.le_succ L)
  refine ⟨by omega, by omega, M_offset_lt hl hm hi, fun h => row_inj hm hm2 h, ?_, _,
    Init_eq F raw L N rho0 dt, ?_, ?_⟩
  · intro hne i2 hi2 heq
    obtain ⟨h3, _⟩ := offset_inj hi hi2 heq
    obtain ⟨h4, h5⟩ := row_inj hm hm2 h3
    exact hne (by rw [h4, h5])
  · rw [Init_result_M]
    show _ = some (fill_M_pure F L N _ raw.M ((l * (l + 1) + m) * N + i))
    rw [fill_M_pure_at F L N _ raw.M l m i hl hm hi]
    simp only [M_func, if_pos hm]
  · intro x hx
    rw [Init_result_M, fill_M_pure_frame]
    intro l3 m3 i3 hl3 hm3 hi3 heq
    have := @M_offset_lt L N l3 m3 i3 hl3 hm3 hi3
    unfold M_offset at this
    omega

/-- C22 at `L = 3`, `N = 4`, `(l, m, i) = (2, 1, 3)`, `(l2, m2) = (1, 1)`. -/
theorem C22_index_in_bounds_witness :
    ∃ F : Libm ℝ, F = Libm.mk Real.pi Real.cos Real.sin Real.exp Real.log Real.sqrt
        (fun y x => Complex.arg ⟨x, y⟩) ∧
    (2 < 3 ∧ 1 ≤ 2 ∧ 3 < 4 ∧ 1 < 3 ∧ 1 ≤ 1) ∧
    2 * (2 + 1) + 1 ≤ 3 * 3 - 1 ∧
    3 * 3 - 1 < 3 * (3 + 1) ∧
    M_offset 2 1 4 3 < Init_M_cells 3 4 ∧
    (2 * (2 + 1) + 1 = 1 * (1 + 1) + 1 → 2 = 1 ∧ 1 = 1) ∧
    ((2, 1) ≠ (1, 1) → ∀ i2, i2 < 4 → M_offset 2 1 4 3 ≠ M_offset 1 1 4 i2) ∧
    ∃ ctx, ERI_FSBT_Init F zeroCtx 3 4 (-5) 0.05 = some ctx ∧
      M_func F (ctx.t 3) 2 1 = some (ctx.M (M_offset 2 1 4 3)) ∧
      ∀ x, Init_M_cells 3 4 ≤ x → ctx.M x = (zeroCtx : ERI_FSBT_t ℝ).M x :=
  ⟨_, rfl, ⟨by norm_num, by norm_num, by norm_num, by norm_num, by norm_num⟩,
    C22_index_in_bounds _ zeroCtx 3 4 (-5) 0.05 2 1 3 1 1 (by norm_num) (by norm_num)
      (by norm_num) (by norm_num) (by norm_num)⟩

/-! ## `Cont_Matrix4` (C23) -/

/-- A loop whose iteration `k` changes exactly the cells `x` with `proj x = k`, each
to a value `g x old` that depends on the cell and on its previous content only. -/
theorem forLoop_partition {σ κ β : Type} (read : σ → κ → β) (proj : κ → Nat)
    (g : κ → β → β) (body : Nat → σ → σ)
    (hframe : ∀ k s x, proj x ≠ k → read (body k s) x = read s x)
    (hval : ∀ k s x, proj x = k → read (body k s) x = g x (read s x))
    (n : Nat) (s : σ) (x : κ) :
    read (forLoop n body s) x = if proj x < n then g x (read s x) else read s x := by
  induction n with
  | zero => simp [forLoop]
  | succ j ih =>
    rw [forLoop_succ]
    by_cases hx : proj x = j
    · rw [hval j _ x hx, ih, if_neg (by omega), if_pos (by omega)]
    · rw [hframe j _ x hx, ih]
      by_cases h1 : proj x < j
      · rw [if_pos h1, if_pos (by omega)]
      · rw [if_neg h1, if_neg (by omega)]

/-- The accumulation of `sumS` computes the double sum. -/
theorem Cont_Matrix4_sumS_eq (G : Common α) (Mat : Matrix4 α) (Mc_AN h_AN al be : Nat) :
    Cont_Matrix4_sumS G Mat Mc_AN h_AN (G.WhatSpecies (G.natn (G.M2G Mc_AN) h_AN))
        (G.F_G2M (G.natn (G.M2G Mc_AN) h_AN)) al be
      = contracted G Mat Mc_AN h_AN al be := by
  unfold Cont_Matrix4_sumS contracted
  simp only []
  have hq : ∀ p, (fun (sumS : α) =>
      forLoop (G.Spe_Specified_Num (G.WhatSpecies (G.natn (G.M2G Mc_AN) h_AN)) be)
        (fun q sumS => sumS
          + G.CntCoes (G.F_G2M (G.natn (G.M2G Mc_AN) h_AN)) al p
            * G.CntCoes (G.F_G2M (G.natn (G.M2G Mc_AN) h_AN)) be q
            * Mat Mc_AN h_AN
                (G.Spe_Trans_Orbital (G.WhatSpecies (G.natn (G.M2G Mc_AN) h_AN)) al p)
                (G.Spe_Trans_Orbital (G.WhatSpecies (G.natn (G.M2G Mc_AN) h_AN)) be q)) sumS)
      = fun sumS => sumS
          + ∑ q in Finset.range
              (G.Spe_Specified_Num (G.WhatSpecies (G.natn (G.M2G Mc_AN) h_AN)) be),
            G.CntCoes (G.F_G2M (G.natn (G.M2G Mc_AN) h_AN)) al p
              * G.CntCoes (G.F_G2M (G.natn (G.M2G Mc_AN) h_AN)) be q
              * Mat Mc_AN h_AN
                  (G.Spe_Trans_Orbital (G.WhatSpecies (G.natn (G.M2G Mc_AN) h_AN)) al p)
                  (G.Spe_Trans_Orbital (G.WhatSpecies (G.natn (G.M2G Mc_AN) h_AN)) be q) := by
    intro p
    funext sumS
    exact forLoop_add _ _ sumS
  simp only [hq]
  rw [forLoop_add]
  norm_num

/-- The loop over `be` of `Cont_Matrix4` in closed form. -/
theorem Cont_loop_be {β : Type} (Mc h al n : Nat) (S : Nat → β) (A : Nat → Nat → Nat → Nat → β)
    (a b c d : Nat) :
    forLoop n (fun be A =>
        fun a2 b2 c2 d2 => if a2 = Mc ∧ b2 = h ∧ c2 = al ∧ d2 = be then S be else A a2 b2 c2 d2)
      A a b c d
      = if d < n then (if a = Mc ∧ b = h ∧ c = al then S d else A a b c d) else A a b c d := by
  refine forLoop_partition
    (fun (A : Nat → Nat → Nat → Nat → β) (x : Nat × Nat × Nat × Nat) =>
      A x.1 x.2.1 x.2.2.1 x.2.2.2)
    (fun x => x.2.2.2)
    (fun x old => if x.1 = Mc ∧ x.2.1 = h ∧ x.2.2.1 = al then S x.2.2.2 else old)
    _ ?_ ?_ n A (a, b, c, d)
  · intro k s x hx
    have : ¬ (x.1 = Mc ∧ x.2.1 = h ∧ x.2.2.1 = al ∧ x.2.2.2 = k) := fun h4 => hx h4.2.2.2
    simp only [if_neg this]
  · intro k s x hx
    have hx2 : x.2.2.2 = k := hx
    subst hx2
    by_cases h3 : x.1 = Mc ∧ x.2.1 = h ∧ x.2.2.1 = al
    · simp only [and_true, if_pos h3]
    · simp only [and_true, if_neg h3]

/-- The loops over `al` and `be` of `Cont_Matrix4` in closed form. -/
theorem Cont_loop_al {β : Type} (Mc h n nb : Nat) (S : Nat → Nat → β)
    (A : Nat → Nat → Nat → Nat → β) (a b c d : Nat) :
    forLoop n (fun al A =>
        forLoop nb (fun be A =>
          fun a2 b2 c2 d2 =>
            if a2 = Mc ∧ b2 = h ∧ c2 = al ∧ d2 = be then S al be else A a2 b2 c2 d2) A)
      A a b c d
      = if c < n then (if d < nb ∧ a = Mc ∧ b = h then S c d else A a b c d)
        else A a b c d := by
  refine forLoop_partition
    (fun (A : Nat → Nat → Nat → Nat → β) (x : Nat × Nat × Nat × Nat) =>
      A x.1 x.2.1 x.2.2.1 x.2.2.2)
    (fun x => x.2.2.1)
    (fun x old => if x.2.2.2 < nb ∧ x.1 = Mc ∧ x.2.1 = h then S x.2.2.1 x.2.2.2 else old)
    _ ?_ ?_ n A (a, b, c, d)
  · intro k s x hx
    simp only []
    rw [Cont_loop_be Mc h k nb (S k) s x.1 x.2.1 x.2.2.1 x.2.2.2]
    have : ¬ (x.1 = Mc ∧ x.2.1 = h ∧ x.2.2.1 = k) := fun h3 => hx h3.2.2
    simp only [if_neg this, ite_self]
  · intro k s x hx
    have hx2 : x.2.2.1 = k := hx
    subst hx2
    simp only []
    rw [Cont_loop_be Mc h x.2.2.1 nb (S x.2.2.1) s x.1 x.2.1 x.2.2.1 x.2.2.2]
    by_cases hd : x.2.2.2 < nb
    · by_cases h2 : x.1 = Mc ∧ x.2.1 = h
      · simp only [and_true, if_pos hd, if_pos h2, if_pos (show x.2.2.2 < nb ∧ x.1 = Mc ∧
          x.2.1 = h from ⟨hd, h2.1, h2.2⟩)]
      · have n2 : ¬ (x.2.2.2 < nb ∧ x.1 = Mc ∧ x.2.1 = h) := fun h3 => h2 h3.2
        simp only [and_true, if_pos hd, if_neg h2, if_neg n2]
    · have n2 : ¬ (x.2.2.2 < nb ∧ x.1 = Mc ∧ x.2.1 = h) := fun h3 => hd h3.1
      simp only [if_neg hd, if_neg n2]

/-- The loops over `h_AN`, `al` and `be` of `Cont_Matrix4` in closed form. -/
theorem Cont_loop_h {β : Type} (Mc n : Nat) (cno : Nat → Nat) (S : Nat → Nat → Nat → β)
    (A : Nat → Nat → Nat → Nat → β) (a b c d : Nat) :
    forLoop n (fun h A =>
        forLoop (cno h) (fun al A =>
          forLoop (cno h) (fun be A =>
            fun a2 b2 c2 d2 =>
              if a2 = Mc ∧ b2 = h ∧ c2 = al ∧ d2 = be then S h al be else A a2 b2 c2 d2) A) A)
      A a b c d
      = if b < n then (if c < cno b ∧ d < cno b ∧ a = Mc then S b c d else A a b c d)
        else A a b c d := by
  refine forLoop_partition
    (fun (A : Nat → Nat → Nat → Nat → β) (x : Nat × Nat × Nat × Nat) =>
      A x.1 x.2.1 x.2.2.1 x.2.2.2)
    (fun x => x.2.1)
    (fun x old => if x.2.2.1 < cno x.2.1 ∧ x.2.2.2 < cno x.2.1 ∧ x.1 = Mc
      then S x.2.1 x.2.2.1 x.2.2.2 else old)
    _ ?_ ?_ n A (a, b, c, d)
  · intro k s x hx
    have hx2 : x.2.1 ≠ k := hx
    simp only []
    rw [Cont_loop_al Mc k (cno k) (cno k) (S k) s x.1 x.2.1 x.2.2.1 x.2.2.2]
    have : ¬ (x.2.2.2 < cno k ∧ x.1 = Mc ∧ x.2.1 = k) := fun h3 => hx2 h3.2.2
    simp only [if_neg this, ite_self]
  · intro k s x hx
    have hx2 : x.2.1 = k := hx
    subst hx2
    simp only []
    rw [Cont_loop_al Mc x.2.1 (cno x.2.1) (cno x.2.1) (S x.2.1) s x.1 x.2.1 x.2.2.1 x.2.2.2]
    by_cases hc : x.2.2.1 < cno x.2.1
    · by_cases h2 : x.2.2.2 < cno x.2.1 ∧ x.1 = Mc
      · simp only [and_true, if_pos hc, if_pos h2, if_pos (show x.2.2.1 < cno x.2.1 ∧
          x.2.2.2 < cno x.2.1 ∧ x.1 = Mc from ⟨hc, h2.1, h2.2⟩)]
      · have n2 : ¬ (x.2.2.1 < cno x.2.1 ∧ x.2.2.2 < cno x.2.1 ∧ x.1 = Mc) :=
          fun h3 => h2 h3.2
        simp only [and_true, if_pos hc, if_neg h2, if_neg n2]
    · have n2 : ¬ (x.2.2.1 < cno x.2.1 ∧ x.2.2.2 < cno x.2.1 ∧ x.1 = Mc) :=
        fun h3 => hc h3.1
      simp only [if_neg hc, if_neg n2]

/-- The four loops of `Cont_Matrix4` in closed form; the outer index runs from `1`
to `n`. -/
theorem Cont_loop_Mc {β : Type} (n : Nat) (nh : Nat → Nat) (cno : Nat → Nat → Nat)
    (S : Nat → Nat → Nat → Nat → β) (A : Nat → Nat → Nat → Nat → β) (a b c d : Nat) :
    forLoop n (fun k A =>
        forLoop (nh (k + 1)) (fun h A =>
          forLoop (cno (k + 1) h) (fun al A =>
            forLoop (cno (k + 1) h) (fun be A =>
              fun a2 b2 c2 d2 =>
                if a2 = k + 1 ∧ b2 = h ∧ c2 = al ∧ d2 = be then S (k + 1) h al be
                else A a2 b2 c2 d2) A) A) A)
      A a b c d
      = if 1 ≤ a ∧ a ≤ n ∧ b < nh a ∧ c < cno a b ∧ d < cno a b then S a b c d
        else A a b c d := by
  have key := forLoop_partition
    (fun (A : Nat → Nat → Nat → Nat → β) (x : Nat × Nat × Nat × Nat) =>
      A x.1 x.2.1 x.2.2.1 x.2.2.2)
    (fun x => x.1 - 1)
    (fun x old => if 1 ≤ x.1 ∧ x.2.1 < nh x.1 ∧ x.2.2.1 < cno x.1 x.2.1 ∧
        x.2.2.2 < cno x.1 x.2.1 then S x.1 x.2.1 x.2.2.1 x.2.2.2 else old)
    (fun k A =>
        forLoop (nh (k + 1)) (fun h A =>
          forLoop (cno (k + 1) h) (fun al A =>
            forLoop (cno (k + 1) h) (fun be A =>
              fun a2 b2 c2 d2 =>
                if a2 = k + 1 ∧ b2 = h ∧ c2 = al ∧ d2 = be then S (k + 1) h al be
                else A a2 b2 c2 d2) A) A) A)
    ?_ ?_ n A (a, b, c, d)
  · simp only [] at key
    rw [key]
    by_cases h1 : 1 ≤ a ∧ a ≤ n ∧ b < nh a ∧ c < cno a b ∧ d < cno a b
    · rw [if_pos h1, if_pos (by omega), if_pos ⟨h1.1, h1.2.2⟩]
    · rw [if_neg h1]
      by_cases h2 : a - 1 < n
      · rw [if_pos h2, if_neg]
        rintro ⟨h3, h4⟩
        exact h1 ⟨h3, by omega, h4⟩
      · rw [if_neg h2]
  · intro k s x hx
    have hx2 : x.1 ≠ k + 1 := fun h => hx (by show x.1 - 1 = k; omega)
    simp only []
    rw [Cont_loop_h (k + 1) (nh (k + 1)) (cno (k + 1)) (S (k + 1)) s x.1 x.2.1 x.2.2.1 x.2.2.2]
    have : ¬ (x.2.2.1 < cno (k + 1) x.2.1 ∧ x.2.2.2 < cno (k + 1) x.2.1 ∧ x.1 = k + 1) :=
      fun h3 => hx2 h3.2.2
    simp only [if_neg this, ite_self]
  · intro k s x hx
    have hx2 : x.1 - 1 = k := hx
    simp only []
    rw [Cont_loop_h (k + 1) (nh (k + 1)) (cno (k + 1)) (S (k + 1)) s x.1 x.2.1 x.2.2.1 x.2.2.2]
    by_cases h1 : x.1 = k + 1
    · have h0 : 1 ≤ x.1 := by omega
      have hnh : nh x.1 = nh (k + 1) := by rw [h1]
      have hcno : cno x.1 x.2.1 = cno (k + 1) x.2.1 := by rw [h1]
      have hS : S x.1 x.2.1 x.2.2.1 x.2.2.2 = S (k + 1) x.2.1 x.2.2.1 x.2.2.2 := by rw [h1]
      rw [hnh, hcno, hS]
      by_cases hb : x.2.1 < nh (k + 1)
      · by_cases h2 : x.2.2.1 < cno (k + 1) x.2.1 ∧ x.2.2.2 < cno (k + 1) x.2.1
        · rw [if_pos hb,
            if_pos (show x.2.2.1 < cno (k + 1) x.2.1 ∧ x.2.2.2 < cno (k + 1) x.2.1 ∧
              x.1 = k + 1 from ⟨h2.1, h2.2, h1⟩),
            if_pos (show 1 ≤ x.1 ∧ x.2.1 < nh (k + 1) ∧ x.2.2.1 < cno (k + 1) x.2.1 ∧
              x.2.2.2 < cno (k + 1) x.2.1 from ⟨h0, hb, h2.1, h2.2⟩)]
        · rw [if_pos hb,
            if_neg (show ¬ (x.2.2.1 < cno (k + 1) x.2.1 ∧ x.2.2.2 < cno (k + 1) x.2.1 ∧
              x.1 = k + 1) from fun h3 => h2 ⟨h3.1, h3.2.1⟩),
            if_neg (show ¬ (1 ≤ x.1 ∧ x.2.1 < nh (k + 1) ∧ x.2.2.1 < cno (k + 1) x.2.1 ∧
              x.2.2.2 < cno (k + 1) x.2.1) from fun h3 => h2 ⟨h3.2.2.1, h3.2.2.2⟩)]
      · rw [if_neg hb,
          if_neg (show ¬ (1 ≤ x.1 ∧ x.2.1 < nh (k + 1) ∧ x.2.2.1 < cno (k + 1) x.2.1 ∧
            x.2.2.2 < cno (k + 1) x.2.1) from fun h3 => hb h3.2.1)]
    · have h0 : ¬ 1 ≤ x.1 := by omega
      rw [if_neg (show ¬ (1 ≤ x.1 ∧ x.2.1 < nh x.1 ∧ x.2.2.1 < cno x.1 x.2.1 ∧
        x.2.2.2 < cno x.1 x.2.1) from fun h3 => h0 h3.1)]
      rw [if_neg (show ¬ (x.2.2.1 < cno (k + 1) x.2.1 ∧ x.2.2.2 < cno (k + 1) x.2.1 ∧
        x.1 = k + 1) from fun h3 => h1 h3.2.2), ite_self]

/-- The array `CMat` after `Cont_Matrix4`: the cells of the index range of the four
loops hold the double sum, every other cell is unchanged. -/
theorem Cont_Matrix4_eq (G : Common α) (Mat CMat : Matrix4 α) (a b c d : Nat) :
    Cont_Matrix4 G Mat CMat a b c d
      = if 1 ≤ a ∧ a ≤ G.Matomnum ∧ b < G.FNAN (G.M2G a) + 1 ∧
            c < G.Spe_Total_CNO (G.WhatSpecies (G.natn (G.M2G a) b)) ∧
            d < G.Spe_Total_CNO (G.WhatSpecies (G.natn (G.M2G a) b))
        then contracted G Mat a b c d else CMat a b c d := by
  have key := Cont_loop_Mc G.Matomnum (fun a => G.FNAN (G.M2G a) + 1)
    (fun a b => G.Spe_Total_CNO (G.WhatSpecies (G.natn (G.M2G a) b)))
    (fun a b c d => Cont_Matrix4_sumS G Mat a b (G.WhatSpecies (G.natn (G.M2G a) b))
      (G.F_G2M (G.natn (G.M2G a) b)) c d) CMat a b c d
  refine Eq.trans key ?_
  rw [Cont_Matrix4_sumS_eq]

/-- The double sum is symmetric in `al`, `be` when the primitive block is. -/
theorem contracted_symm (G : Common α) (Mat : Matrix4 α) (Mc h al be : Nat)
    (hsym : ∀ a b, Mat Mc h a b = Mat Mc h b a) :
    contracted G Mat Mc h al be = contracted G Mat Mc h be al := by
  unfold contracted
  simp only []
  rw [Finset.sum_comm]
  refine Finset.sum_congr rfl (fun q _ => Finset.sum_congr rfl (fun p _ => ?_))
  rw [hsym]
  ring

/-- C23 (`Cont_Matrix4` preserves symmetry block-wise): for every atom `Mc` in
`1..Matomnum`, every neighbour `h ≤ FNAN[M2G[Mc]]` and all contracted indices
`al`, `be` below `Spe_Total_CNO[Hwan]`, the entry written is
`CMat[Mc][h][al][be] = Σ_{p < Spe_Specified_Num[Hwan][al]} Σ_{q < Spe_Specified_Num[Hwan][be]}
CntCoes[Mh][al][p] * CntCoes[Mh][be][q] * Mat[Mc][h][Spe_Trans_Orbital[Hwan][al][p]][Spe_Trans_Orbital[Hwan][be][q]]`,
and when the primitive block is symmetric (`Mat[Mc][h][a][b] = Mat[Mc][h][b][a]` for all
`a`, `b`) the contracted block satisfies `CMat[Mc][h][al][be] = CMat[Mc][h][be][al]`. -/
theorem C23_contraction_symmetry (G : Common ℝ) (Mat CMat : Matrix4 ℝ) (Mc h al be : Nat)
    (h1 : 1 ≤ Mc) (h2 : Mc ≤ G.Matomnum) (h3 : h ≤ G.FNAN (G.M2G Mc))
    (hal : al < G.Spe_Total_CNO (G.WhatSpecies (G.natn (G.M2G Mc) h)))
    (hbe : be < G.Spe_Total_CNO (G.WhatSpecies (G.natn (G.M2G Mc) h))) :
    Cont_Matrix4 G Mat CMat Mc h al be
      = ∑ p in Finset.range
            (G.Spe_Specified_Num (G.WhatSpecies (G.natn (G.M2G Mc) h)) al),
          ∑ q in Finset.range
              (G.Spe_Specified_Num (G.WhatSpecies (G.natn (G.M2G Mc) h)) be),
            G.CntCoes (G.F_G2M (G.natn (G.M2G Mc) h)) al p
              * G.CntCoes (G.F_G2M (G.natn (G.M2G Mc) h)) be q
              * Mat Mc h
                  (G.Spe_Trans_Orbital (G.WhatSpecies (G.natn (G.M2G Mc) h)) al p)
                  (G.Spe_Trans_Orbital (G.WhatSpecies (G.natn (G.M2G Mc) h)) be q) ∧
    ((∀ a b, Mat Mc h a b = Mat Mc h b a) →
      Cont_Matrix4 G Mat CMat Mc h al be = Cont_Matrix4 G Mat CMat Mc h be al) := by
  have e1 : Cont_Matrix4 G Mat CMat Mc h al be = contracted G Mat Mc h al be := by
    rw [Cont_Matrix4_eq, if_pos ⟨h1, h2, by omega, hal, hbe⟩]
  have e2 : Cont_Matrix4 G Mat CMat Mc h be al = contracted G Mat Mc h be al := by
    rw [Cont_Matrix4_eq, if_pos ⟨h1, h2, by omega, hbe, hal⟩]
  refine ⟨e1, fun hsym => ?_⟩
  rw [e1, e2]
  exact contracted_symm G Mat Mc h al be hsym

/-- C23 on the concrete tables `exampleCommon` and the symmetric array `exampleMat`
(`Mat[..][..][a][b] = a + b`), at `Mc = 1`, `h = 1`, `al = 0`, `be = 1`. -/
theorem C23_contraction_symmetry_witness :
    (1 ≤ 1 ∧ 1 ≤ (exampleCommon : Common ℝ).Matomnum ∧
      1 ≤ (exampleCommon : Common ℝ).FNAN ((exampleCommon : Common ℝ).M2G 1) ∧
      0 < (exampleCommon : Common ℝ).Spe_Total_CNO
        ((exampleCommon : Common ℝ).WhatSpecies
          ((exampleCommon : Common ℝ).natn ((exampleCommon : Common ℝ).M2G 1) 1)) ∧
      1 < (exampleCommon : Common ℝ).Spe_Total_CNO
        ((exampleCommon : Common ℝ).WhatSpecies
          ((exampleCommon : Common ℝ).natn ((exampleCommon : Common ℝ).M2G 1) 1)) ∧
      ∀ a b, (exampleMat : Matrix4 ℝ) 1 1 a b = (exampleMat : Matrix4 ℝ) 1 1 b a) ∧
    Cont_Matrix4 (exampleCommon : Common ℝ) exampleMat (fun _ _ _ _ => 0) 1 1 0 1
      = Cont_Matrix4 (exampleCommon : Common ℝ) exampleMat (fun _ _ _ _ => 0) 1 1 1 0 :=
  ⟨⟨le_refl 1, le_refl 1, le_refl 1, Nat.zero_lt_two, Nat.one_lt_two,
      fun a b => by simp [exampleMat, Nat.add_comm]⟩,
    (C23_contraction_symmetry exampleCommon exampleMat (fun _ _ _ _ => 0) 1 1 0 1
      (le_refl 1) (le_refl 1) (le_refl 1) Nat.zero_lt_two Nat.one_lt_two).2
      (fun a b => by simp [exampleMat, Nat.add_comm])⟩

end FSBT
